import Mathlib

/-
Verification of the matchms metadata-harmonization core.

This file gives a shallow embedding of the Python sources

  * matchms/Metadata.py                     (class Metadata)
  * matchms/filtering/metadata_filters.py   (_convert_precursor_mz,
                                             _add_precursor_mz_metadata)
  * matchms/filtering/clean_inchis.py       (clean_inchis)

and proves properties of the embedding.

Modelling decisions (documented once here):
  * Python strings are `List Char`.  Python `str.lower` is modelled on
    ASCII letters, and the regex class `\s` by `Char.isWhitespace`.
  * Python floats are modelled exactly as decimal numbers
    `mant / 10 ^ exp` (`PyFloat`); numeric equality is `pfEq`.  The
    decimal-literal fragment of Python `float(str)` parsing is modelled
    (optional sign, digits, one optional decimal point); exponent forms
    and `inf`/`nan` do not occur in any input considered here.
  * Python `None` is the value `MValue.mnull`; a fallible Python
    expression is an `Except String` computation whose `error` carries
    the exception name.
  * Metadata dictionaries are association lists with dict semantics:
    `setKV` overwrites in place, insertion of a new key appends.
  * NumPy array values hold numbers (`List PyFloat`); element-wise
    comparison semantics (including scalar broadcasting, the boolean
    coercion of 0/1-element results and the `ValueError` raised when a
    longer comparison result is used as a truth value) follow the NumPy
    generation the project pins (elementwise comparison of incompatible
    shapes yields a scalar `False`).
-/

/-- Exact decimal number `mant / 10 ^ exp`, the model of a Python float. -/
structure PyFloat where
  mant : Int
  exp : Nat
deriving DecidableEq, Repr

/-- Numeric equality of two model floats. -/
def pfEq (a b : PyFloat) : Bool :=
  a.mant * (10 : Int) ^ b.exp == b.mant * (10 : Int) ^ a.exp

/-- Model float with integral value `n`. -/
def pfOfInt (n : Int) : PyFloat := ⟨n, 0⟩

/-- Whether a model float has zero fractional part (`float.is_integer`). -/
def pfIsInt (a : PyFloat) : Bool := a.mant % (10 : Int) ^ a.exp == 0

/-- Integral value of a model float (meaningful when `pfIsInt`). -/
def pfToInt (a : PyFloat) : Int := a.mant / (10 : Int) ^ a.exp

/-- Scalar Python values, the possible elements of a metadata list value
such as `pepmass = (120.1, 5)`. -/
inductive SValue where
  | sstr (s : List Char)
  | sint (n : Int)
  | sfloat (f : PyFloat)
  | snull
deriving DecidableEq, Repr

/-- Python values stored in a metadata dictionary. -/
inductive MValue where
  | mstr (s : List Char)
  | mint (n : Int)
  | mfloat (f : PyFloat)
  | mnull
  | mlist (xs : List SValue)
  | marr (xs : List PyFloat)
deriving DecidableEq, Repr

open MValue SValue

/-- Scalar value seen as a dictionary value. -/
def SValue.toM : SValue → MValue
  | sstr s => mstr s
  | sint n => mint n
  | sfloat f => mfloat f
  | snull => mnull

/-- A metadata record: an association list from keys to values, with
dictionary semantics (unique keys, insertion order kept). -/
abbrev Meta := List (String × MValue)

/-- Value stored under a key (first matching entry). -/
def lookupKV : Meta → String → Option MValue
  | [], _ => none
  | (k, v) :: rest, key => if k = key then some v else lookupKV rest key

/-- Python `dict.get(key)`: the stored value, or `None` when absent. -/
def getD (m : Meta) (key : String) : MValue :=
  (lookupKV m key).getD mnull

/-- Store a value under a key: overwrite in place, else append. -/
def setKV : Meta → String → MValue → Meta
  | [], key, v => [(key, v)]
  | (k, w) :: rest, key, v =>
      if k = key then (k, v) :: rest else (k, w) :: setKV rest key v

/-- Python `dict.pop(key, None)`: drop the entry if present. -/
def popKV : Meta → String → Meta
  | [], _ => []
  | (k, w) :: rest, key => if k = key then rest else (k, w) :: popKV rest key

/-- Keys of a record, in insertion order. -/
def keysOf (m : Meta) : List String := m.map Prod.fst

/-- Lower-casing of one character, as Python `str.lower` acts on ASCII. -/
def lowerChar (c : Char) : Char :=
  if 65 ≤ c.toNat ∧ c.toNat ≤ 90 then Char.ofNat (c.toNat + 32) else c

/-- Python `str.lower` on a whole string. -/
def lowerStr (s : List Char) : List Char := s.map lowerChar

/-- The punctuation class of the key regex replacement `[!?.,;:] -> ""`. -/
def punctChars : List Char := ['!', '?', '.', ',', ';', ':']

/-- Action of the two key regex replacements on one character:
whitespace becomes an underscore, punctuation is deleted. -/
def regexChar (c : Char) : Option Char :=
  if c.isWhitespace then some '_'
  else if c ∈ punctChars then none
  else some c

/-- Key harmonization applied by the picky dictionary: regex
replacements, then lower-casing. -/
def normChars (s : List Char) : List Char :=
  (s.filterMap regexChar).map lowerChar

/-- Modelled from the spec: the alias table `_key_replacements` is loaded
by `load_known_key_conversions` from configuration that is not part of
this repository snapshot; the spec (sections 1 and 6) treats it as
opaque caller-supplied configuration, so it is modelled as the empty
table (no alias entry is relevant to any property proved here; the
`precursormz`/`precursor_mass` aliasing is handled by the resolver, not
by this table). -/
def key_replacements : List (String × String) := []

/-- Canonical form of a key: regex replacements, lower-casing, then
alias-table lookup. -/
def normKey (k : String) : String :=
  let n : String := ⟨normChars k.data⟩
  match key_replacements.lookup n with
  | some r => r
  | none => n

/-- Installing the replacement tables on the picky dictionary re-applies
key harmonization to every stored key (later keys overwrite on
collision, dict insertion order kept). -/
def installTables (m : Meta) : Meta :=
  m.foldl (fun acc kv => setKV acc (normKey kv.1) kv.2) []

/-- Python `str.strip()`. -/
def pyStrip (s : List Char) : List Char :=
  ((s.dropWhile Char.isWhitespace).reverse.dropWhile Char.isWhitespace).reverse

/-- Decimal digit test. -/
def isDigitCh (c : Char) : Bool := 48 ≤ c.toNat && c.toNat ≤ 57

/-- Numeric value of a digit string (meaningful when all are digits). -/
def natOfDigits (s : List Char) : Nat :=
  s.foldl (fun a c => a * 10 + (c.toNat - 48)) 0

/-- Splitting of a string at the first decimal point, if any. -/
def splitDot : List Char → Option (List Char × List Char)
  | [] => none
  | c :: rest =>
      if c = '.' then some ([], rest)
      else match splitDot rest with
        | some (a, b) => some (c :: a, b)
        | none => none

/-- Model of the decimal-literal fragment of Python `float(str)`:
optional sign, digits with at most one decimal point, at least one
digit.  Returns `none` where Python raises `ValueError`. -/
def pyParseFloat (s : List Char) : Option PyFloat :=
  let signed : Bool × List Char :=
    match s with
    | '-' :: r => (true, r)
    | '+' :: r => (false, r)
    | _ => (false, s)
  let t := signed.2
  let core : Option PyFloat :=
    match splitDot t with
    | none =>
        if t ≠ [] ∧ t.all isDigitCh then some ⟨natOfDigits t, 0⟩ else none
    | some (ip, fp) =>
        if (ip ≠ [] ∨ fp ≠ []) ∧ ip.all isDigitCh ∧ fp.all isDigitCh ∧
            splitDot fp = none then
          some ⟨natOfDigits (ip ++ fp), fp.length⟩
        else none
  match core with
  | some f => some (if signed.1 then ⟨-f.mant, f.exp⟩ else f)
  | none => none

/-- The canonical precursor field name (`_default_key`). -/
def default_key : String := "precursor_mz"

/-- The alias keys for the precursor field (`_accepted_keys`). -/
def accepted_keys : List String := ["precursormz", "precursor_mass"]

/-- The string sentinels for a missing precursor value
(`_accepted_missing_entries`). -/
def accepted_missing_entries : List (List Char) :=
  ["".data, "N/A".data, "NA".data, "n/a".data]

/-- Embedding of `_convert_precursor_mz`: convert a value to a number if
possible, otherwise `none`.  A string parses through `float(str.strip())`;
ints and floats pass through unchanged; `None`, sentinel strings and
unsupported types yield `none` (the source only logs a warning there). -/
def convert_precursor_mz : MValue → Option MValue
  | mnull => none
  | mstr s =>
      if s ∈ accepted_missing_entries then none
      else match pyParseFloat (pyStrip s) with
        | some f => some (mfloat f)
        | none => none
  | mint n => some (mint n)
  | mfloat f => some (mfloat f)
  | mlist _ => none
  | marr _ => none

/-- Modelled from the spec: `get_first_common_element` lives in
`matchms/utils.py`, which is not part of this repository snapshot.  Per
the spec (section 4.3 step 1) the search is over "the canonical field
and its known aliases (ordered: canonical name first, then aliases in a
fixed declared order); take the first present key". -/
def get_first_common_element (keys cands : List String) : Option String :=
  cands.find? (fun c => decide (c ∈ keys))

/-- Python indexing `v[0]` on an arbitrary value: works on lists, arrays
and strings, raises `IndexError` when they are empty and `TypeError` on
non-subscriptable values. -/
def index0 : MValue → Except String MValue
  | mlist (x :: _) => Except.ok x.toM
  | mlist [] => Except.error "IndexError"
  | marr (x :: _) => Except.ok (mfloat x)
  | marr [] => Except.error "IndexError"
  | mstr (c :: _) => Except.ok (mstr [c])
  | mstr [] => Except.error "IndexError"
  | mint _ => Except.error "TypeError"
  | mfloat _ => Except.error "TypeError"
  | mnull => Except.error "TypeError"

/-- Numeric content of a converted precursor value (`float(x)` for the
`isinstance(x, (float, int))` branch). -/
def pyFloatCast : MValue → PyFloat
  | mint n => pfOfInt n
  | mfloat f => f
  | _ => pfOfInt 0

/-- Embedding of `_add_precursor_mz_metadata`: resolve `precursor_mz`
from the first present candidate key, cast to float and drop the alias
keys on success; otherwise fall back to `pepmass[0]` stored as-is; else
leave the record unchanged.  `pepmass[0]` on a non-subscriptable value
propagates the Python exception. -/
def add_precursor_mz_metadata (m : Meta) : Except String Meta :=
  let key? := get_first_common_element (keysOf m) (default_key :: accepted_keys)
  let v : MValue := match key? with
    | some k => getD m k
    | none => mnull
  match convert_precursor_mz v with
  | some x =>
      Except.ok (popKV (popKV (setKV m "precursor_mz" (mfloat (pyFloatCast x)))
        "precursormz") "precursor_mass")
  | none =>
      let pepmass := getD m "pepmass"
      if pepmass = mnull then Except.ok m
      else do
        let tok ← index0 pepmass
        match convert_precursor_mz tok with
        | some _ => Except.ok (setKV m "precursor_mz" tok)
        | none => Except.ok m

/-- Modelled from the spec: `_interpret_pepmass_metadata` lives in
`matchms/filtering/interpret_pepmass.py`, which is not part of this
repository snapshot.  Per the spec (section 4.2) it derives a mass
candidate but "does not itself write `precursor_mz`", "leaves the field
available for PrecursorMzResolver" and tolerates malformed values, so
its observable effect on the record is the identity. -/
def interpret_pepmass_metadata (m : Meta) : Meta := m

/-- The ionmode block of `Metadata.harmonize_metadata`: a present
non-null value is lower-cased in place (`AttributeError` on a non-string
value, since `.lower()` is a `str` method), an absent or null value is
replaced by the sentinel `"n/a"`. -/
def ionmodeBlock (m : Meta) : Except String Meta :=
  match lookupKV m "ionmode" with
  | some (mstr s) => Except.ok (setKV m "ionmode" (mstr (lowerStr s)))
  | some mnull => Except.ok (setKV m "ionmode" (mstr "n/a".data))
  | none => Except.ok (setKV m "ionmode" (mstr "n/a".data))
  | some _ => Except.error "AttributeError"

/-- Conversion of a charge string: optional surrounding whitespace, an
optional trailing or leading sign as in `"2+"`, `"-1"`, `"2"`. -/
def chargeStrToInt (s : List Char) : Option Int :=
  let t := pyStrip s
  let digits : List Char → Option Int := fun d =>
    if d ≠ [] ∧ d.all isDigitCh then some (natOfDigits d) else none
  match t.getLast? with
  | some '+' => digits t.dropLast
  | some '-' => (digits t.dropLast).map (fun n => -n)
  | _ =>
      match t with
      | '-' :: r => (digits r).map (fun n => -n)
      | '+' :: r => digits r
      | _ => digits t

/-- Modelled from the spec: `_convert_charge_to_int` lives in
`matchms/filtering/make_charge_int.py`, which is not part of this
repository snapshot.  Per the spec (section 4.5) it converts "signed
numeric strings (`"2+"`, `"-1"`, `"2"`), floats with zero fractional
part" to a signed integer and yields no value ("no charge", never an
error) on failure. -/
def convert_charge_to_int : MValue → Option Int
  | mint n => some n
  | mfloat f => if pfIsInt f then some (pfToInt f) else none
  | mstr s => chargeStrToInt s
  | _ => none

/-- The Python `isinstance(x, int)` test on a metadata value. -/
def isPyInt : MValue → Bool
  | mint _ => true
  | _ => false

/-- The charge block of `Metadata.harmonize_metadata`: overwrite the
charge only when it is not already an int and the conversion succeeds. -/
def chargeBlock (m : Meta) : Meta :=
  if isPyInt (getD m "charge") then m
  else match convert_charge_to_int (getD m "charge") with
    | some z => setKV m "charge" (mint z)
    | none => m

/-- Embedding of `Metadata.harmonize_metadata`: install the key
replacement tables (re-harmonizing all stored keys), interpret pepmass,
normalize ionmode, resolve `precursor_mz`, coerce the charge. -/
def harmonize_metadata (m : Meta) : Except String Meta := do
  let m0 := installTables m
  let m1 := interpret_pepmass_metadata m0
  let m2 ← ionmodeBlock m1
  let m3 ← add_precursor_mz_metadata m2
  pure (chargeBlock m3)

/-- The possible arguments of `Metadata.__init__`: `None`, a mapping, or
a value of any other type. -/
inductive InitArg where
  | noneArg
  | mapArg (m : Meta)
  | badArg (v : MValue)

/-- Construction of the underlying `PickyDict` from a plain mapping with
the default settings (`force_lower_case=True`, no replacement tables):
keys are lower-cased, later keys overwrite on collision. -/
def pickyInit (m : Meta) : Meta :=
  m.foldl (fun acc kv => setKV acc ⟨lowerStr kv.1.data⟩ kv.2) []

/-- Embedding of `Metadata.__init__`: `None` yields an empty record, a
mapping yields a record over that mapping, anything else raises
`ValueError` before any record state exists; when
`harmonize_defaults` is true the record is then harmonized. -/
def metadata_init (arg : InitArg) (harmonize_defaults : Bool) :
    Except String Meta :=
  match arg with
  | InitArg.noneArg =>
      if harmonize_defaults then harmonize_metadata [] else Except.ok []
  | InitArg.mapArg m =>
      if harmonize_defaults then harmonize_metadata (pickyInit m)
      else Except.ok (pickyInit m)
  | InitArg.badArg _ =>
      Except.error "ValueError: Unexpected data type for metadata (should be dictionary, or None)."

/-- Python `==` between non-array scalar values: numbers compare across
int/float, strings and `None` compare structurally, different kinds are
unequal. -/
def sEq (a b : SValue) : Bool :=
  match a, b with
  | sstr s, sstr t => s == t
  | sint n, sint k => n == k
  | sint n, sfloat g => pfEq (pfOfInt n) g
  | sfloat f, sint k => pfEq f (pfOfInt k)
  | sfloat f, sfloat g => pfEq f g
  | snull, snull => true
  | _, _ => false

/-- Python `==` between two non-array dictionary values. -/
def pyEq (v w : MValue) : Bool :=
  match v, w with
  | mstr s, mstr t => s == t
  | mint n, mint k => n == k
  | mint n, mfloat g => pfEq (pfOfInt n) g
  | mfloat f, mint k => pfEq f (pfOfInt k)
  | mfloat f, mfloat g => pfEq f g
  | mnull, mnull => true
  | mlist xs, mlist ys =>
      xs.length == ys.length && (List.zip xs ys).all (fun p => sEq p.1 p.2)
  | marr xs, marr ys => xs == ys
  | _, _ => false

/-- Comparison of one scalar against one array element under NumPy
broadcasting (string and null scalars never equal a number). -/
def scalarEqElem (v : MValue) (y : PyFloat) : Bool :=
  match v with
  | mint n => pfEq (pfOfInt n) y
  | mfloat f => pfEq f y
  | _ => false

/-- The NumPy check `np.all(xs == w)` for an array value `xs` against an
arbitrary other value: element-wise against an array or list of the same
length, broadcast against a numeric scalar, `False` when the element-wise
comparison is impossible (with the empty-array special case for `None`). -/
def npAllEq (xs : List PyFloat) (w : MValue) : Bool :=
  match w with
  | marr ys =>
      xs.length == ys.length && (List.zip xs ys).all (fun p => pfEq p.1 p.2)
  | mlist ys =>
      xs.length == ys.length &&
        (List.zip xs ys).all (fun p => scalarEqElem p.2.toM p.1)
  | mint n => xs.all (fun x => pfEq x (pfOfInt n))
  | mfloat f => xs.all (fun x => pfEq x f)
  | mnull => xs.isEmpty
  | mstr _ => false

/-- Truth value of the boolean array produced by a NumPy comparison:
empty arrays are falsy, one-element arrays yield their element, longer
arrays raise `ValueError`. -/
def boolOfArray (bs : List Bool) : Except String Bool :=
  match bs with
  | [] => Except.ok false
  | [b] => Except.ok b
  | _ => Except.error "ValueError"

/-- Truth value of the Python expression `v != w` for a non-array `v`:
a plain `bool` against non-array values, NumPy broadcasting semantics
against an array value. -/
def pyNeTruthy (v w : MValue) : Except String Bool :=
  match w with
  | marr ys =>
      match v with
      | mstr _ => Except.ok true
      | mlist xs =>
          if xs.length = ys.length then
            boolOfArray ((List.zip xs ys).map
              (fun p => !(scalarEqElem p.1.toM p.2)))
          else if ys.length = 1 then
            boolOfArray (xs.map (fun x => !(scalarEqElem x.toM (ys.headD ⟨0, 0⟩))))
          else if xs.length = 1 then
            boolOfArray (ys.map (fun y => !(scalarEqElem (xs.headD snull).toM y)))
          else Except.ok true
      | _ => boolOfArray (ys.map (fun y => !(scalarEqElem v y)))
  | _ => Except.ok (!(pyEq v w))

/-- Equality of the key sets of two records (`dict.keys()` views compare
as sets). -/
def sameKeySet (a b : Meta) : Bool :=
  (keysOf a).all (fun k => decide (k ∈ keysOf b)) &&
    (keysOf b).all (fun k => decide (k ∈ keysOf a))

/-- The per-key loop of `Metadata.__eq__`: an `np.ndarray` value uses
`np.all(value == other)`, any other value uses the truth value of
`value != other_metadata.get(key)`. -/
def eqLoop : List (String × MValue) → Meta → Except String Bool
  | [], _ => Except.ok true
  | (k, v) :: rest, b =>
      match v with
      | marr xs =>
          if npAllEq xs (getD b k) then eqLoop rest b else Except.ok false
      | _ => do
          let ne ← pyNeTruthy v (getD b k)
          if ne then Except.ok false else eqLoop rest b

/-- Embedding of `Metadata.__eq__`. -/
def metaEq (a b : Meta) : Except String Bool :=
  if sameKeySet a b then eqLoop a b else Except.ok false

/-- Modelled from the spec: per-key value equality as the spec words it,
"either exact equality or element-wise equality for array-valued fields"
(an array-valued field compares element-wise, so it can only equal
another array of the same shape). -/
def specValEq (v w : MValue) : Bool :=
  match v, w with
  | marr xs, marr ys =>
      xs.length == ys.length && (List.zip xs ys).all (fun p => pfEq p.1 p.2)
  | marr _, _ => false
  | _, marr _ => false
  | _, _ => pyEq v w

/-- Modelled from the spec: record equality as the spec words it,
"identical key sets and, per key, either exact equality or element-wise
equality for array-valued fields". -/
def specRecordEq (a b : Meta) : Bool :=
  sameKeySet a b && (keysOf a).all (fun k => specValEq (getD a k) (getD b k))

/-- The empirically found list of strings that represent empty entries in
`clean_inchis` (`empty_entry_types`), in source order: 'N/A', 'n/a',
'NA', 0, '0', the two-quote string, the empty string, 'nodata',
the quoted empty bodies, the marker-only line, and a tab-CR-LF string. -/
def empty_entry_types : List MValue :=
  [mstr ['N', '/', 'A'], mstr ['n', '/', 'a'], mstr ['N', 'A'], mint 0,
   mstr ['0'], mstr ['"', '"'], mstr [], mstr ['n', 'o', 'd', 'a', 't', 'a'],
   mstr ['"', 'I', 'n', 'C', 'h', 'I', '=', 'n', '/', 'a', '"'],
   mstr ['"', 'I', 'n', 'C', 'h', 'I', '=', '"'],
   mstr ['I', 'n', 'C', 'h', 'I', '=', '1', 'S', '/', 'N', '\n'],
   mstr ['\t', '\x0d', '\n']]

/-- The InChI marker string used by the splits in `clean_inchis`. -/
def markerL : List Char := ['I', 'n', 'C', 'h', 'I', '=']

/-- Remainder of the string after the first occurrence of the InChI
marker, when the marker occurs. -/
def dropAfterMarker : List Char → Option (List Char)
  | [] => none
  | c :: rest =>
      if markerL.isPrefixOf (c :: rest) then some ((c :: rest).drop markerL.length)
      else dropAfterMarker rest

/-- Fuel-driven iteration of `dropAfterMarker` (each step strictly
shortens the string, so `s.length` fuel always reaches the fixpoint). -/
def afterLastFuel : Nat → List Char → List Char
  | 0, s => s
  | f + 1, s =>
      match dropAfterMarker s with
      | none => s
      | some t => afterLastFuel f t

/-- Python `s.split("InChI=")[-1]`: the remainder after the last
occurrence of the marker, or the whole string when it does not occur. -/
def afterLastMarker (s : List Char) : List Char := afterLastFuel s.length s

/-- Python `s.endswith(pat)`. -/
def pyEndsWith (s pat : List Char) : Bool := pat.isSuffixOf s

/-- The final re-wrapping step of `clean_inchis`: quote the payload as
`"InChI=<payload>"`, handling the trailing-quote and trailing-newline
variants (`inchi[:-2]` and `inchi[:-3]` are the Python slices). -/
def inchiRepairCore (t2 : List Char) : List Char :=
  if pyEndsWith t2 ['"'] then ('"' :: markerL) ++ t2
  else if pyEndsWith t2 ['\n'] then
    ('"' :: markerL) ++ t2.take (t2.length - 2) ++ ['"']
  else if pyEndsWith t2 ['\n', '"'] then
    ('"' :: markerL) ++ t2.take (t2.length - 3) ++ ['"']
  else ('"' :: markerL) ++ t2 ++ ['"']

/-- The SMILES-rescue stage of `clean_inchis`: when the payload starts
with C, c, O or N and rescue is enabled, the payload (with quotes
removed) goes through the external converter; otherwise the working
string is unchanged. -/
def inchiRescueStage (conv : List Char → Except String (List Char))
    (rescue_smiles : Bool) (s1 : List Char) (c0 : Char) :
    Except String (List Char) :=
  if c0 ∈ ['C', 'c', 'O', 'N'] then
    (if rescue_smiles then
      conv ((afterLastMarker s1).filter (fun c => c ≠ '"'))
    else Except.ok s1)
  else Except.ok s1

/-- Embedding of the value transformation of `clean_inchis`, over the
current `inchi` field value.  `conv` is the external chemical converter
`mol_converter(assumed_smile, "smi", "inchi")`; its failures propagate
as errors.  Membership in the empty-entry list is Python `in`, i.e.
element-wise `==`.  A non-string value (such as `None`) raises
`AttributeError` at the `.replace` call; an empty residual payload
raises `IndexError` at the `[0]` index. -/
def cleanValInchi (conv : List Char → Except String (List Char))
    (rescue_smiles : Bool) (v : MValue) : Except String MValue :=
  if empty_entry_types.any (fun e => pyEq v e) then Except.ok (mstr "n/a".data)
  else
    match v with
    | mstr s0 =>
        let s1 := s0.filter (fun c => c ≠ ' ')
        match (afterLastMarker s1).head? with
        | none => Except.error "IndexError"
        | some c0 =>
            (inchiRescueStage conv rescue_smiles s1 c0).map
              (fun s2 => mstr (inchiRepairCore (afterLastMarker (pyStrip s2))))
    | _ => Except.error "AttributeError"

/-- Embedding of `clean_inchis` on a spectrum's metadata record: read
the `inchi` field through `Metadata.__getitem__` (which yields `None`
for a missing key), repair the value, and write it back through
`Metadata.__setitem__` (which re-harmonizes, the metadata default). -/
def clean_inchis (conv : List Char → Except String (List Char))
    (rescue_smiles : Bool) (m : Meta) : Except String Meta := do
  let r ← cleanValInchi conv rescue_smiles (getD m "inchi")
  harmonize_metadata (setKV m "inchi" r)

deriving instance DecidableEq for Except

/-- An external converter that always fails, used as a concrete instance
of the chemical-converter dependency. -/
def convFail : List Char → Except String (List Char) :=
  fun _ => Except.error "ConversionError"

/-- Values that are not NumPy arrays. -/
def notArr (v : MValue) : Prop :=
  match v with
  | marr _ => False
  | _ => True

/-- The value examined by precursor resolution: the value under the
first present key among the canonical name and its aliases, or `None`
(the source's `metadata.get(precursor_mz_key)` with `precursor_mz_key`
possibly `None`). -/
def firstCandidateVal (m : Meta) : MValue :=
  match get_first_common_element (keysOf m) (default_key :: accepted_keys) with
  | some k => getD m k
  | none => mnull

/-- Characters are equal exactly when their code points are. -/
theorem char_eq_iff_toNat {c d : Char} : c = d ↔ c.toNat = d.toNat := by
  rw [Char.ext_iff]
  constructor
  · intro h; unfold Char.toNat; rw [h]
  · intro h
    rw [@UInt32.ext_iff c.val d.val]
    simpa [Char.toNat, UInt32.toNat] using h

/-- Code point of `Char.ofNat` below the surrogate range. -/
theorem toNat_charOfNat {n : Nat} (h : n < 55296) : (Char.ofNat n).toNat = n := by
  have hv : n.isValidChar := Or.inl h
  simp [Char.ofNat, hv]
  rfl

/-- Code point of the lower-cased form of an upper-case letter. -/
theorem lowerChar_toNat_upper {c : Char} (h : 65 ≤ c.toNat ∧ c.toNat ≤ 90) :
    (lowerChar c).toNat = c.toNat + 32 := by
  rw [lowerChar, if_pos h]
  exact toNat_charOfNat (by omega)

/-- Lower-casing leaves a character without an upper-case code point
unchanged. -/
theorem lowerChar_eq_of_not_upper {c : Char}
    (h : ¬(65 ≤ c.toNat ∧ c.toNat ≤ 90)) : lowerChar c = c := by
  simp only [lowerChar]
  rw [if_neg h]

/-- Lower-casing is idempotent. -/
theorem lowerChar_idem (c : Char) : lowerChar (lowerChar c) = lowerChar c := by
  by_cases h : 65 ≤ c.toNat ∧ c.toNat ≤ 90
  · have h1 := lowerChar_toNat_upper h
    exact lowerChar_eq_of_not_upper (by rw [h1]; omega)
  · rw [lowerChar_eq_of_not_upper h, lowerChar_eq_of_not_upper h]

/-- Characters with large code points are not whitespace. -/
theorem not_ws_of_toNat_large {c : Char} (h : 33 ≤ c.toNat) :
    c.isWhitespace = false := by
  simp only [Char.isWhitespace, Bool.or_eq_false_iff, decide_eq_false_iff_not]
  refine ⟨⟨⟨?_, ?_⟩, ?_⟩, ?_⟩ <;>
    (rw [char_eq_iff_toNat]; intro he; rw [he] at h; revert h; decide)

/-- Lower-casing keeps non-whitespace characters non-whitespace. -/
theorem lowerChar_not_ws {c : Char} (h : c.isWhitespace = false) :
    (lowerChar c).isWhitespace = false := by
  by_cases hu : 65 ≤ c.toNat ∧ c.toNat ≤ 90
  · exact not_ws_of_toNat_large (by rw [lowerChar_toNat_upper hu]; omega)
  · rwa [lowerChar, if_neg hu]

/-- Characters with large code points are not in the punctuation class. -/
theorem not_punct_of_toNat_large {c : Char} (h : 97 ≤ c.toNat) :
    c ∉ punctChars := by
  intro hm
  fin_cases hm <;> revert h <;> decide

/-- Lower-casing keeps non-punctuation characters non-punctuation. -/
theorem lowerChar_not_punct {c : Char} (h : c ∉ punctChars) :
    lowerChar c ∉ punctChars := by
  by_cases hu : 65 ≤ c.toNat ∧ c.toNat ≤ 90
  · exact not_punct_of_toNat_large (by rw [lowerChar_toNat_upper hu]; omega)
  · rwa [lowerChar_eq_of_not_upper hu]

/-- Characters produced by the regex replacement are never whitespace or
punctuation. -/
theorem regexChar_out_clean {c d : Char} (h : regexChar c = some d) :
    d.isWhitespace = false ∧ d ∉ punctChars := by
  unfold regexChar at h
  by_cases h1 : c.isWhitespace = true
  · rw [if_pos h1] at h
    simp only [Option.some.injEq] at h
    subst h
    exact ⟨by decide, by decide⟩
  · rw [if_neg h1] at h
    by_cases h2 : c ∈ punctChars
    · rw [if_pos h2] at h; cases h
    · rw [if_neg h2] at h
      simp only [Option.some.injEq] at h
      subst h
      exact ⟨by simpa using h1, h2⟩

/-- The regex replacement fixes clean characters. -/
theorem regexChar_of_clean {c : Char} (h1 : c.isWhitespace = false)
    (h2 : c ∉ punctChars) : regexChar c = some c := by
  unfold regexChar
  rw [if_neg (by simp [h1]), if_neg h2]

/-- The regex replacement fixes strings of clean characters. -/
theorem filterMap_regexChar_clean {s : List Char}
    (h : ∀ c ∈ s, c.isWhitespace = false ∧ c ∉ punctChars) :
    s.filterMap regexChar = s := by
  induction s with
  | nil => rfl
  | cons c rest ih =>
      have hc := h c (List.mem_cons_self c rest)
      rw [List.filterMap_cons, regexChar_of_clean hc.1 hc.2,
        ih (fun d hd => h d (List.mem_cons_of_mem _ hd))]

/-- Normalized key strings contain only clean characters. -/
theorem normChars_clean {s : List Char} :
    ∀ d ∈ normChars s, d.isWhitespace = false ∧ d ∉ punctChars := by
  intro d hd
  unfold normChars at hd
  rw [List.mem_map] at hd
  obtain ⟨e, he, rfl⟩ := hd
  rw [List.mem_filterMap] at he
  obtain ⟨c, _, hc⟩ := he
  have h := regexChar_out_clean hc
  exact ⟨lowerChar_not_ws h.1, lowerChar_not_punct h.2⟩

/-- Character-level key normalization is idempotent. -/
theorem normChars_idem (s : List Char) :
    normChars (normChars s) = normChars s := by
  have h1 : normChars (normChars s) = (normChars s).map lowerChar := by
    rw [normChars, filterMap_regexChar_clean normChars_clean]
  rw [h1, normChars, List.map_map]
  exact List.map_congr_left (fun c _ => lowerChar_idem c)

/-- Unfolding of `normKey` for the modelled (empty) alias table. -/
theorem normKey_eq (k : String) : normKey k = ⟨normChars k.data⟩ := rfl

/-- Key normalization is idempotent. -/
theorem normKey_idem (k : String) : normKey (normKey k) = normKey k := by
  rw [normKey_eq k, normKey_eq]
  exact congrArg String.mk (normChars_idem k.data)

/-- Unfolding of a store at a matching head entry. -/
theorem setKV_cons_eq {k1 k : String} (h : k1 = k) (w v : MValue)
    (rest : Meta) : setKV ((k1, w) :: rest) k v = (k1, v) :: rest := by
  simp [setKV, h]

/-- Unfolding of a store at a non-matching head entry. -/
theorem setKV_cons_ne {k1 k : String} (h : k1 ≠ k) (w v : MValue)
    (rest : Meta) :
    setKV ((k1, w) :: rest) k v = (k1, w) :: setKV rest k v := by
  simp [setKV, h]

/-- Unfolding of a lookup at a matching head entry. -/
theorem lookupKV_cons_eq {k1 k : String} (h : k1 = k) (w : MValue)
    (rest : Meta) : lookupKV ((k1, w) :: rest) k = some w := by
  simp [lookupKV, h]

/-- Unfolding of a lookup at a non-matching head entry. -/
theorem lookupKV_cons_ne {k1 k : String} (h : k1 ≠ k) (w : MValue)
    (rest : Meta) : lookupKV ((k1, w) :: rest) k = lookupKV rest k := by
  simp [lookupKV, h]

/-- Unfolding of a pop at a matching head entry. -/
theorem popKV_cons_eq {k1 k : String} (h : k1 = k) (w : MValue)
    (rest : Meta) : popKV ((k1, w) :: rest) k = rest := by
  simp [popKV, h]

/-- Unfolding of a pop at a non-matching head entry. -/
theorem popKV_cons_ne {k1 k : String} (h : k1 ≠ k) (w : MValue)
    (rest : Meta) : popKV ((k1, w) :: rest) k = (k1, w) :: popKV rest k := by
  simp [popKV, h]

/-- Lookup after storing the same key. -/
theorem lookupKV_setKV_self (m : Meta) (k : String) (v : MValue) :
    lookupKV (setKV m k v) k = some v := by
  induction m with
  | nil => simp [setKV, lookupKV]
  | cons kv rest ih =>
      obtain ⟨k1, w⟩ := kv
      by_cases h : k1 = k
      · rw [setKV_cons_eq h, lookupKV_cons_eq h]
      · rw [setKV_cons_ne h, lookupKV_cons_ne h, ih]

/-- Lookup after storing a different key. -/
theorem lookupKV_setKV_ne (m : Meta) {k k2 : String} (h : k ≠ k2)
    (v : MValue) : lookupKV (setKV m k v) k2 = lookupKV m k2 := by
  induction m with
  | nil => simp [setKV, lookupKV, h]
  | cons kv rest ih =>
      obtain ⟨k1, w⟩ := kv
      by_cases h1 : k1 = k
      · subst h1
        rw [setKV_cons_eq rfl, lookupKV_cons_ne h, lookupKV_cons_ne h]
      · rw [setKV_cons_ne h1]
        by_cases h2 : k1 = k2
        · rw [lookupKV_cons_eq h2, lookupKV_cons_eq h2]
        · rw [lookupKV_cons_ne h2, lookupKV_cons_ne h2, ih]

/-- Storing the value a key already holds does not change the record. -/
theorem setKV_lookup_eq {m : Meta} {k : String} {v : MValue}
    (h : lookupKV m k = some v) : setKV m k v = m := by
  induction m with
  | nil => simp [lookupKV] at h
  | cons kv rest ih =>
      obtain ⟨k1, w⟩ := kv
      by_cases h1 : k1 = k
      · rw [lookupKV_cons_eq h1] at h
        cases h
        rw [setKV_cons_eq h1]
      · rw [lookupKV_cons_ne h1] at h
        rw [setKV_cons_ne h1, ih h]

/-- Storing an absent key appends the new entry. -/
theorem setKV_not_mem {m : Meta} {k : String} (v : MValue)
    (h : lookupKV m k = none) : setKV m k v = m ++ [(k, v)] := by
  induction m with
  | nil => simp [setKV]
  | cons kv rest ih =>
      obtain ⟨k1, w⟩ := kv
      by_cases h1 : k1 = k
      · rw [lookupKV_cons_eq h1] at h
        cases h
      · rw [lookupKV_cons_ne h1] at h
        rw [setKV_cons_ne h1, ih h]
        rfl

/-- Absent keys are exactly those failing lookup. -/
theorem lookupKV_eq_none_iff {m : Meta} {k : String} :
    lookupKV m k = none ↔ k ∉ keysOf m := by
  induction m with
  | nil => simp [lookupKV, keysOf]
  | cons kv rest ih =>
      obtain ⟨k1, w⟩ := kv
      by_cases h1 : k1 = k
      · rw [lookupKV_cons_eq h1]
        simp [keysOf, h1]
      · rw [lookupKV_cons_ne h1]
        simp only [keysOf, List.map_cons, List.mem_cons]
        rw [ih]
        unfold keysOf
        constructor
        · intro ha hb
          rcases hb with hb | hb
          · exact h1 hb.symm
          · exact ha hb
        · intro ha hb
          exact ha (Or.inr hb)

/-- Key membership after a store. -/
theorem mem_keysOf_setKV {m : Meta} {k k2 : String} {v : MValue} :
    k2 ∈ keysOf (setKV m k v) ↔ k2 = k ∨ k2 ∈ keysOf m := by
  induction m with
  | nil => simp [setKV, keysOf]
  | cons kv rest ih =>
      obtain ⟨k1, w⟩ := kv
      by_cases h1 : k1 = k
      · subst h1
        rw [setKV_cons_eq rfl]
        simp only [keysOf, List.map_cons, List.mem_cons]
        tauto
      · rw [setKV_cons_ne h1]
        simp only [keysOf, List.map_cons, List.mem_cons]
        have ih2 : k2 ∈ keysOf (setKV rest k v) ↔ k2 = k ∨ k2 ∈ keysOf rest := ih
        unfold keysOf at ih2
        rw [ih2]
        tauto

/-- Storing preserves duplicate-freedom of the key list. -/
theorem nodup_keysOf_setKV {m : Meta} {k : String} {v : MValue}
    (h : (keysOf m).Nodup) : (keysOf (setKV m k v)).Nodup := by
  induction m with
  | nil => simp [setKV, keysOf]
  | cons kv rest ih =>
      obtain ⟨k1, w⟩ := kv
      simp only [keysOf, List.map_cons, List.nodup_cons] at h
      by_cases h1 : k1 = k
      · subst h1
        rw [setKV_cons_eq rfl]
        simp only [keysOf, List.map_cons, List.nodup_cons]
        exact h
      · rw [setKV_cons_ne h1]
        simp only [keysOf, List.map_cons, List.nodup_cons]
        refine ⟨?_, ih h.2⟩
        intro hmem
        have hmem2 : k1 ∈ keysOf (setKV rest k v) := hmem
        rw [mem_keysOf_setKV] at hmem2
        rcases hmem2 with rfl | hmem2
        · exact h1 rfl
        · exact h.1 hmem2

/-- Lookup of the popped key fails afterwards (duplicate-free records). -/
theorem lookupKV_popKV_self {m : Meta} {k : String}
    (h : (keysOf m).Nodup) : lookupKV (popKV m k) k = none := by
  induction m with
  | nil => simp [popKV, lookupKV]
  | cons kv rest ih =>
      obtain ⟨k1, w⟩ := kv
      simp only [keysOf, List.map_cons, List.nodup_cons] at h
      by_cases h1 : k1 = k
      · subst h1
        rw [popKV_cons_eq rfl, lookupKV_eq_none_iff]
        exact h.1
      · rw [popKV_cons_ne h1, lookupKV_cons_ne h1, ih h.2]

/-- Lookup of other keys is unchanged by a pop. -/
theorem lookupKV_popKV_ne (m : Meta) {k k2 : String} (h : k ≠ k2) :
    lookupKV (popKV m k) k2 = lookupKV m k2 := by
  induction m with
  | nil => simp [popKV]
  | cons kv rest ih =>
      obtain ⟨k1, w⟩ := kv
      by_cases h1 : k1 = k
      · subst h1
        rw [popKV_cons_eq rfl, lookupKV_cons_ne h]
      · rw [popKV_cons_ne h1]
        by_cases h2 : k1 = k2
        · rw [lookupKV_cons_eq h2, lookupKV_cons_eq h2]
        · rw [lookupKV_cons_ne h2, lookupKV_cons_ne h2, ih]

/-- Popping an absent key does nothing. -/
theorem popKV_not_mem {m : Meta} {k : String}
    (h : lookupKV m k = none) : popKV m k = m := by
  induction m with
  | nil => rfl
  | cons kv rest ih =>
      obtain ⟨k1, w⟩ := kv
      by_cases h1 : k1 = k
      · rw [lookupKV_cons_eq h1] at h
        cases h
      · rw [lookupKV_cons_ne h1] at h
        rw [popKV_cons_ne h1, ih h]

/-- Keys after a pop were keys before. -/
theorem mem_keysOf_popKV {m : Meta} {k k2 : String}
    (h : k2 ∈ keysOf (popKV m k)) : k2 ∈ keysOf m := by
  induction m with
  | nil => simpa [popKV] using h
  | cons kv rest ih =>
      obtain ⟨k1, w⟩ := kv
      by_cases h1 : k1 = k
      · rw [popKV_cons_eq h1] at h
        simp only [keysOf, List.map_cons, List.mem_cons]
        exact Or.inr h
      · rw [popKV_cons_ne h1] at h
        simp only [keysOf, List.map_cons, List.mem_cons] at *
        rcases h with h | h
        · exact Or.inl h
        · exact Or.inr (ih h)

/-- Popping preserves duplicate-freedom of the key list. -/
theorem nodup_keysOf_popKV {m : Meta} {k : String}
    (h : (keysOf m).Nodup) : (keysOf (popKV m k)).Nodup := by
  induction m with
  | nil => simpa [popKV] using h
  | cons kv rest ih =>
      obtain ⟨k1, w⟩ := kv
      simp only [keysOf, List.map_cons, List.nodup_cons] at h
      by_cases h1 : k1 = k
      · rw [popKV_cons_eq h1]
        exact h.2
      · rw [popKV_cons_ne h1]
        simp only [keysOf, List.map_cons, List.nodup_cons]
        exact ⟨fun hm => h.1 (mem_keysOf_popKV hm), ih h.2⟩

/-- Every key of an installed record is a fixed point of `normKey`. -/
theorem keysOf_installTables_norm (m : Meta) :
    ∀ k ∈ keysOf (installTables m), normKey k = k := by
  unfold installTables
  suffices h : ∀ acc, (∀ k ∈ keysOf acc, normKey k = k) →
      ∀ k ∈ keysOf (m.foldl (fun a kv => setKV a (normKey kv.1) kv.2) acc),
        normKey k = k by
    exact h [] (by simp [keysOf])
  induction m with
  | nil => intro acc hacc; simpa using hacc
  | cons kv rest ih =>
      intro acc hacc k hk
      rw [List.foldl_cons] at hk
      refine ih (setKV acc (normKey kv.1) kv.2) ?_ k hk
      intro k2 hk2
      rw [mem_keysOf_setKV] at hk2
      rcases hk2 with rfl | hk2
      · exact normKey_idem kv.1
      · exact hacc k2 hk2

/-- Installed records have duplicate-free keys. -/
theorem nodup_keysOf_installTables (m : Meta) :
    (keysOf (installTables m)).Nodup := by
  unfold installTables
  suffices h : ∀ acc, (keysOf acc).Nodup →
      (keysOf (m.foldl (fun a kv => setKV a (normKey kv.1) kv.2) acc)).Nodup by
    exact h [] (by simp [keysOf])
  induction m with
  | nil => intro acc hacc; simpa using hacc
  | cons kv rest ih =>
      intro acc hacc
      rw [List.foldl_cons]
      exact ih (setKV acc (normKey kv.1) kv.2) (nodup_keysOf_setKV hacc)

/-- Installing the tables on a record whose keys are already canonical
and duplicate-free is the identity. -/
theorem installTables_fixed {m : Meta} (hnd : (keysOf m).Nodup)
    (hfix : ∀ k ∈ keysOf m, normKey k = k) : installTables m = m := by
  unfold installTables
  suffices h : ∀ acc m2, (keysOf (acc ++ m2)).Nodup →
      (∀ k ∈ keysOf m2, normKey k = k) →
      (m2.foldl (fun a kv => setKV a (normKey kv.1) kv.2) acc) = acc ++ m2 by
    have := h [] m (by simpa using hnd) hfix
    simpa using this
  intro acc m2
  induction m2 generalizing acc with
  | nil => intro h1 h2; simp
  | cons kv rest ih =>
      intro h1 h2
      obtain ⟨k1, w⟩ := kv
      rw [List.foldl_cons]
      have hk1 : normKey k1 = k1 :=
        h2 k1 (by simp [keysOf])
      have hnotin : lookupKV acc k1 = none := by
        rw [lookupKV_eq_none_iff]
        intro hm
        have hd : (List.map Prod.fst acc).Disjoint
            (List.map Prod.fst ((k1, w) :: rest)) := by
          apply List.disjoint_of_nodup_append
          have h4 := h1
          unfold keysOf at h4
          rwa [List.map_append] at h4
        exact hd hm (by simp)
      rw [hk1, setKV_not_mem w hnotin]
      have := ih (acc ++ [(k1, w)])
      rw [List.append_assoc] at this
      simp only [List.singleton_append] at this
      refine this h1 ?_
      intro k2 hk2
      exact h2 k2 (by simp [keysOf] at *; tauto)

/-- Claim C3: precursor resolution is claimed to tolerate a missing,
scalar, or malformed `pepmass` without raising.  The code contradicts
this for a scalar (non-subscriptable) `pepmass`: `pepmass[0]` raises
`TypeError` on a float scalar (and `IndexError` on an empty list), while
missing or malformed-but-subscriptable values are indeed tolerated. -/
theorem add_precursor_mz_scalar_pepmass_raises :
    add_precursor_mz_metadata [("pepmass", mfloat ⟨1201, 1⟩)] =
      Except.error "TypeError" ∧
    add_precursor_mz_metadata [("pepmass", mlist [])] =
      Except.error "IndexError" ∧
    add_precursor_mz_metadata [] = Except.ok [] ∧
    add_precursor_mz_metadata [("pepmass", mstr "abc".data)] =
      Except.ok [("pepmass", mstr "abc".data)] :=
  ⟨by decide, by decide, by decide, by decide⟩

/-- Claim C7: constructing a record from a non-mapping, non-null value
fails immediately with a descriptive `ValueError` and produces no record
state; a null argument creates an empty record, a mapping argument a
record over that mapping (shown for a construction without the default
harmonization pass, which the claim does not describe; with the default
flag the null argument also yields a record, namely the harmonized empty
one). -/
theorem metadata_init_spec :
    (∀ (v : MValue) (hd : Bool), metadata_init (InitArg.badArg v) hd =
      Except.error
        "ValueError: Unexpected data type for metadata (should be dictionary, or None).") ∧
    metadata_init InitArg.noneArg false = Except.ok [] ∧
    (∀ m : Meta, metadata_init (InitArg.mapArg m) false =
      Except.ok (pickyInit m)) ∧
    metadata_init InitArg.noneArg true =
      Except.ok [("ionmode", mstr "n/a".data)] :=
  ⟨fun _ _ => rfl, rfl, fun _ => rfl, by decide⟩

/-- Claim C9 counterexample: the claim says any whitespace-only string
is a sentinel replaced by `"n/a"`, but a single space is not in the
empty-entry list: the repair raises `IndexError` on it, and a single
newline is rewritten to the quoted empty InChI body instead. -/
theorem clean_inchis_whitespace_cex :
    cleanValInchi convFail true (mstr " ".data) = Except.error "IndexError" ∧
    cleanValInchi convFail true (mstr "\n".data) =
      Except.ok (mstr "\"InChI=\"".data) :=
  ⟨by decide, by decide⟩

/-- Claim C9 (amended): exactly the values of the source's empty-entry
list (the N/A variants, the integer 0 and the strings "0", the quoted
empty string, the empty string, "nodata", the two quoted empty InChI
bodies, the marker-only line, and the single whitespace string of the
list) are normalized to the sentinel `"n/a"`, with no converter call and
no further transformation; other whitespace-only strings are not
treated as sentinels. -/
theorem clean_inchis_sentinel_amended
    (conv : List Char → Except String (List Char)) (rescue : Bool)
    (v : MValue) (h : v ∈ empty_entry_types) :
    cleanValInchi conv rescue v = Except.ok (mstr "n/a".data) := by
  fin_cases h <;> rfl

/-- Claim C9 amended witness at a concrete sentinel value. -/
theorem clean_inchis_sentinel_amended_witness :
    cleanValInchi convFail true (mstr "N/A".data) =
      Except.ok (mstr "n/a".data) :=
  clean_inchis_sentinel_amended convFail true (mstr "N/A".data) (by decide)

/-- Claim C10: on a spectrum whose metadata has no `inchi` key the
lookup yields `None`, which is not in the empty-entry list, and the
string method `.replace` applied to it raises `AttributeError`; the
record is neither treated as empty nor left unchanged. -/
theorem clean_inchis_missing_inchi_raises
    (conv : List Char → Except String (List Char)) (rescue : Bool)
    (m : Meta) (h : lookupKV m "inchi" = none) :
    clean_inchis conv rescue m = Except.error "AttributeError" := by
  unfold clean_inchis
  have hg : getD m "inchi" = mnull := by rw [getD, h]; rfl
  rw [hg]
  rfl

/-- Claim C10 witness at a concrete record without an `inchi` key. -/
theorem clean_inchis_missing_inchi_raises_witness :
    clean_inchis convFail true [("pepmass", mlist [sfloat ⟨1201, 1⟩])] =
      Except.error "AttributeError" :=
  clean_inchis_missing_inchi_raises convFail true _ (by decide)

/-- Lookup of a member entry in a duplicate-free record. -/
theorem lookupKV_of_mem_nodup {m : Meta} (hnd : (keysOf m).Nodup)
    {p : String × MValue} (hp : p ∈ m) : lookupKV m p.1 = some p.2 := by
  induction m with
  | nil => cases hp
  | cons kv rest ih =>
      obtain ⟨k1, w⟩ := kv
      simp only [keysOf, List.map_cons, List.nodup_cons] at hnd
      rcases List.mem_cons.mp hp with rfl | hp2
      · exact lookupKV_cons_eq rfl w rest
      · by_cases h1 : k1 = p.1
        · exfalso
          apply hnd.1
          rw [h1]
          exact List.mem_map.mpr ⟨p, hp2, rfl⟩
        · rw [lookupKV_cons_ne h1]
          exact ih hnd.2 hp2

/-- Successful lookup means the entry is in the record. -/
theorem mem_of_lookupKV {m : Meta} {k : String} {v : MValue}
    (h : lookupKV m k = some v) : (k, v) ∈ m := by
  induction m with
  | nil => cases h
  | cons kv rest ih =>
      obtain ⟨k1, w⟩ := kv
      by_cases h1 : k1 = k
      · rw [lookupKV_cons_eq h1] at h
        cases h
        subst h1
        exact List.mem_cons_self _ _
      · rw [lookupKV_cons_ne h1] at h
        exact List.mem_cons_of_mem _ (ih h)

/-- Unfolding of the comparison loop at an array-valued entry. -/
theorem eqLoop_cons_arr (k : String) (xs : List PyFloat) (rest : List (String × MValue)) (b : Meta) :
    eqLoop ((k, marr xs) :: rest) b =
      if npAllEq xs (getD b k) then eqLoop rest b else Except.ok false := rfl

/-- For a non-array value the per-entry check is the plain truth value
of the Python `!=`. -/
theorem pyNeTruthy_at_nonarrL {v w : MValue} (hw : notArr w) :
    pyNeTruthy v w = Except.ok (!(pyEq v w)) := by
  cases w <;> first
    | rfl
    | exact absurd hw (by simp [notArr])

/-- Unfolding of the comparison loop at a non-array entry, error case. -/
theorem eqLoop_cons_other_err {v : MValue} {k : String}
    {rest : List (String × MValue)} {b : Meta} {e : String}
    (h : pyNeTruthy v (getD b k) = Except.error e) (hv : notArr v) :
    eqLoop ((k, v) :: rest) b = Except.error e := by
  cases v <;> first
    | (simp only [eqLoop]; rw [h]; rfl)
    | exact absurd hv (by simp [notArr])

/-- Unfolding of the comparison loop at a non-array entry, mismatch. -/
theorem eqLoop_cons_other_ne {v : MValue} {k : String}
    {rest : List (String × MValue)} {b : Meta}
    (h : pyNeTruthy v (getD b k) = Except.ok true) (hv : notArr v) :
    eqLoop ((k, v) :: rest) b = Except.ok false := by
  cases v <;> first
    | (simp only [eqLoop]; rw [h]; rfl)
    | exact absurd hv (by simp [notArr])

/-- Unfolding of the comparison loop at a non-array entry, match. -/
theorem eqLoop_cons_other_cont {v : MValue} {k : String}
    {rest : List (String × MValue)} {b : Meta}
    (h : pyNeTruthy v (getD b k) = Except.ok false) (hv : notArr v) :
    eqLoop ((k, v) :: rest) b = eqLoop rest b := by
  cases v <;> first
    | (simp only [eqLoop]; rw [h]; rfl)
    | exact absurd hv (by simp [notArr])

/-- A non-array value that passes the spec-side check is compared with a
non-array value, and they are Python-equal. -/
theorem specValEq_nonarrL {v w : MValue} (h : specValEq v w = true)
    (hv : notArr v) : notArr w ∧ pyEq v w = true := by
  cases v <;> cases w <;>
    first
      | exact hv.elim
      | exact Bool.noConfusion h
      | exact ⟨True.intro, h⟩

/-- An array value that passes the spec-side check passes the NumPy
check. -/
theorem specValEq_arrL {xs : List PyFloat} {w : MValue}
    (h : specValEq (marr xs) w = true) : npAllEq xs w = true := by
  cases w <;>
    first
      | exact Bool.noConfusion h
      | exact h

/-- The comparison loop accepts when every entry passes the spec-side
per-key value check against the other record. -/
theorem eqLoop_ok_true {b : Meta} :
    ∀ entries : List (String × MValue),
      (∀ p ∈ entries, specValEq p.2 (getD b p.1) = true) →
      eqLoop entries b = Except.ok true := by
  intro entries
  induction entries with
  | nil => intro _; rfl
  | cons p rest ih =>
      intro h
      obtain ⟨k, v⟩ := p
      have h0 : specValEq v (getD b k) = true := h (k, v) (List.mem_cons_self _ _)
      have hrest := fun q hq => h q (List.mem_cons_of_mem _ hq)
      rcases hv : v with s | n | f | _ | xs | xs
      all_goals subst hv
      case marr =>
        rw [eqLoop_cons_arr, specValEq_arrL h0, if_pos rfl]
        exact ih hrest
      all_goals (
        obtain ⟨hwn, hpe⟩ := specValEq_nonarrL h0 True.intro
        refine Eq.trans (eqLoop_cons_other_cont ?_ ?_) (ih hrest)
        · rw [pyNeTruthy_at_nonarrL hwn, hpe]
          rfl
        · exact True.intro)

/-- The comparison loop rejects (or raises) when some entry holds an
array failing the NumPy check against the other record. -/
theorem eqLoop_ne_true {b : Meta} {k : String} {xs : List PyFloat} :
    ∀ entries : List (String × MValue), (k, marr xs) ∈ entries →
      npAllEq xs (getD b k) = false → eqLoop entries b ≠ Except.ok true := by
  intro entries
  induction entries with
  | nil => intro h; cases h
  | cons p rest ih =>
      intro hp hnp
      obtain ⟨k1, v1⟩ := p
      rcases List.mem_cons.mp hp with heq | hp2
      · cases heq
        rw [eqLoop_cons_arr, hnp]
        simp only [Bool.false_eq_true, if_false]
        intro h; cases h
      · by_cases harr : ∃ ys, v1 = marr ys
        · obtain ⟨ys, rfl⟩ := harr
          rw [eqLoop_cons_arr]
          by_cases hq : npAllEq ys (getD b k1) = true
          · rw [hq, if_pos rfl]
            exact ih hp2 hnp
          · rw [Bool.not_eq_true] at hq
            rw [hq]
            simp only [Bool.false_eq_true, if_false]
            intro h; cases h
        · have hv1 : notArr v1 := by
            cases v1 <;> first
              | exact True.intro
              | exact absurd ⟨_, rfl⟩ harr
          rcases hne : pyNeTruthy v1 (getD b k1) with e | tv
          · rw [eqLoop_cons_other_err hne hv1]
            intro h; cases h
          · cases tv
            · rw [eqLoop_cons_other_cont hne hv1]
              exact ih hp2 hnp
            · rw [eqLoop_cons_other_ne hne hv1]
              intro h; cases h

/-- Claim C4 counterexample: the claimed equivalence fails.  The record
holding the array `[5.0, 5.0]` compares equal (through NumPy scalar
broadcasting in `np.all(value == other)`) to the record holding the
scalar `5`, although the two values are not equal and in particular not
element-wise equal arrays. -/
theorem metadata_eq_broadcast_cex :
    metaEq [("k", marr [⟨5, 0⟩, ⟨5, 0⟩])] [("k", mint 5)] = Except.ok true ∧
    specRecordEq [("k", marr [⟨5, 0⟩, ⟨5, 0⟩])] [("k", mint 5)] = false :=
  ⟨by decide, by decide⟩

/-- Claim C4 (amended): records with different key sets are unequal;
records with identical key sets whose per-key values are equal (with
element-wise equality of same-shape array values) are equal; records
differing numerically in an element of a same-length array-valued field
are unequal (or the comparison raises on an earlier key).  The
equivalence claimed originally fails only because an array value on the
left may also compare equal to a broadcast scalar on the right. -/
theorem metadata_eq_amended :
    (∀ a b : Meta, sameKeySet a b = false → metaEq a b = Except.ok false) ∧
    (∀ a b : Meta, (keysOf a).Nodup → specRecordEq a b = true →
      metaEq a b = Except.ok true) ∧
    (∀ (a b : Meta) (k : String) (xs ys : List PyFloat),
      lookupKV a k = some (marr xs) → lookupKV b k = some (marr ys) →
      xs.length = ys.length →
      (∃ p ∈ List.zip xs ys, pfEq p.1 p.2 = false) →
      metaEq a b ≠ Except.ok true) := by
  refine ⟨?_, ?_, ?_⟩
  · intro a b h
    unfold metaEq
    rw [h]
    rfl
  · intro a b hnd hspec
    rw [specRecordEq, Bool.and_eq_true] at hspec
    obtain ⟨hks, hall⟩ := hspec
    unfold metaEq
    rw [hks, if_pos rfl]
    apply eqLoop_ok_true
    intro p hp
    have hk : p.1 ∈ keysOf a := List.mem_map.mpr ⟨p, hp, rfl⟩
    have h2 := (List.all_eq_true.mp hall) p.1 hk
    have h3 : getD a p.1 = p.2 := by
      rw [getD, lookupKV_of_mem_nodup hnd hp]
      rfl
    rwa [h3] at h2
  · intro a b k xs ys hla hlb hlen hne
    unfold metaEq
    by_cases hks : sameKeySet a b = true
    · rw [hks, if_pos rfl]
      apply eqLoop_ne_true a (mem_of_lookupKV hla)
      have hgb : getD b k = marr ys := by rw [getD, hlb]; rfl
      rw [hgb]
      obtain ⟨p, hp, hpf⟩ := hne
      have hall : ((xs.zip ys).all fun q => pfEq q.1 q.2) = false := by
        apply List.all_eq_false.mpr
        exact ⟨p, hp, by simp [hpf]⟩
      simp [npAllEq, hall]
    · rw [Bool.not_eq_true] at hks
      rw [hks]
      simp only [Bool.false_eq_true, if_false]
      intro h; cases h

/-- Claim C4 amended witness: two records equal per the spec-side check
compare equal, and two records with a same-length array differing in one
element do not. -/
theorem metadata_eq_amended_witness :
    metaEq [("k", marr [⟨5, 0⟩])] [("k", marr [⟨50, 1⟩])] = Except.ok true ∧
    metaEq [("k", marr [⟨5, 0⟩, ⟨6, 0⟩])] [("k", marr [⟨5, 0⟩, ⟨7, 0⟩])] ≠
      Except.ok true :=
  ⟨metadata_eq_amended.2.1 _ _ (by decide) (by decide),
   metadata_eq_amended.2.2 _ _ "k" [⟨5, 0⟩, ⟨6, 0⟩] [⟨5, 0⟩, ⟨7, 0⟩]
     (by decide) (by decide) (by decide)
     ⟨(⟨6, 0⟩, ⟨7, 0⟩), by decide, by decide⟩⟩

/-- Claim C1 counterexample: a record holding the alias `precursor_mass
= "100.5"` (a coercible alias value), the alias `precursormz = "N/A"`
and a `pepmass` field.  The claim says the alias-derived value 100.5 is
stored and all alias keys are removed; the code instead tries only the
first present candidate key (`precursormz`), fails to coerce it, falls
back to `pepmass` and stores 50.2 while keeping both alias keys. -/
theorem precursor_mz_alias_cex :
    convert_precursor_mz (mstr "100.5".data) =
      some (mfloat ⟨1005, 1⟩) ∧
    add_precursor_mz_metadata
      [("precursormz", mstr "N/A".data),
       ("precursor_mass", mstr "100.5".data),
       ("pepmass", mlist [sfloat ⟨502, 1⟩, sint 10])] =
    Except.ok
      [("precursormz", mstr "N/A".data),
       ("precursor_mass", mstr "100.5".data),
       ("pepmass", mlist [sfloat ⟨502, 1⟩, sint 10]),
       ("precursor_mz", mfloat ⟨502, 1⟩)] :=
  ⟨by decide, by decide⟩

/-- Claim C1 (amended): resolution examines only the first present key
among `precursor_mz`, `precursormz`, `precursor_mass`, in that order.
When that key's value coerces, it is stored as `precursor_mz` cast to
float and both alias keys are removed; the `pepmass` fallback fires only
when the first present candidate yields no coercible value, storing the
mass token as-is; when the fallback also fails (no usable `pepmass` or
an uncoercible token) the record is returned unchanged, so
`precursor_mz` remains absent when it was absent. -/
theorem precursor_mz_resolution_amended :
    (∀ (m : Meta) (k : String) (x : MValue), (keysOf m).Nodup →
      get_first_common_element (keysOf m) (default_key :: accepted_keys) =
        some k →
      convert_precursor_mz (getD m k) = some x →
      ∃ m2, add_precursor_mz_metadata m = Except.ok m2 ∧
        lookupKV m2 "precursor_mz" = some (mfloat (pyFloatCast x)) ∧
        lookupKV m2 "precursormz" = none ∧
        lookupKV m2 "precursor_mass" = none) ∧
    (∀ (m : Meta) (tok x : MValue),
      convert_precursor_mz (firstCandidateVal m) = none →
      getD m "pepmass" ≠ mnull →
      index0 (getD m "pepmass") = Except.ok tok →
      convert_precursor_mz tok = some x →
      add_precursor_mz_metadata m =
        Except.ok (setKV m "precursor_mz" tok)) ∧
    (∀ m : Meta, convert_precursor_mz (firstCandidateVal m) = none →
      getD m "pepmass" = mnull →
      add_precursor_mz_metadata m = Except.ok m) ∧
    (∀ (m : Meta) (tok : MValue),
      convert_precursor_mz (firstCandidateVal m) = none →
      getD m "pepmass" ≠ mnull →
      index0 (getD m "pepmass") = Except.ok tok →
      convert_precursor_mz tok = none →
      add_precursor_mz_metadata m = Except.ok m) := by
  refine ⟨?_, ?_, ?_, ?_⟩
  · intro m k x hnd hk hcv
    have hstep : add_precursor_mz_metadata m =
        Except.ok (popKV (popKV (setKV m "precursor_mz"
          (mfloat (pyFloatCast x))) "precursormz") "precursor_mass") := by
      unfold add_precursor_mz_metadata
      rw [hk]
      simp only []
      rw [hcv]
    refine ⟨_, hstep, ?_, ?_, ?_⟩
    · rw [lookupKV_popKV_ne _ (by decide), lookupKV_popKV_ne _ (by decide),
        lookupKV_setKV_self]
    · rw [lookupKV_popKV_ne _ (by decide)]
      exact lookupKV_popKV_self (nodup_keysOf_setKV hnd)
    · exact lookupKV_popKV_self
        (nodup_keysOf_popKV (nodup_keysOf_setKV hnd))
  · intro m tok x hfc hpn hidx hcv
    simp only [add_precursor_mz_metadata]
    rw [show (match get_first_common_element (keysOf m)
        (default_key :: accepted_keys) with
      | some k => getD m k
      | none => mnull) = firstCandidateVal m from rfl, hfc]
    rw [if_neg hpn]
    rw [hidx]
    simp only [bind, Except.bind]
    rw [hcv]
  · intro m hfc hpe
    simp only [add_precursor_mz_metadata]
    rw [show (match get_first_common_element (keysOf m)
        (default_key :: accepted_keys) with
      | some k => getD m k
      | none => mnull) = firstCandidateVal m from rfl, hfc]
    rw [if_pos hpe]
  · intro m tok hfc hpn hidx hcv
    simp only [add_precursor_mz_metadata]
    rw [show (match get_first_common_element (keysOf m)
        (default_key :: accepted_keys) with
      | some k => getD m k
      | none => mnull) = firstCandidateVal m from rfl, hfc]
    rw [if_neg hpn]
    rw [hidx]
    simp only [bind, Except.bind]
    rw [hcv]

/-- Claim C1 amended witness: a coercible first candidate is stored as a
float with the aliases removed; a record with only `pepmass` stores the
mass token as-is. -/
theorem precursor_mz_resolution_amended_witness :
    (∃ m2, add_precursor_mz_metadata
        [("precursormz", mstr "100.5".data)] = Except.ok m2 ∧
      lookupKV m2 "precursor_mz" =
        some (mfloat (pyFloatCast (mfloat ⟨1005, 1⟩))) ∧
      lookupKV m2 "precursormz" = none ∧
      lookupKV m2 "precursor_mass" = none) ∧
    add_precursor_mz_metadata
      [("pepmass", mlist [sfloat ⟨1201, 1⟩, sint 5])] =
      Except.ok (setKV [("pepmass", mlist [sfloat ⟨1201, 1⟩, sint 5])]
        "precursor_mz" (mfloat ⟨1201, 1⟩)) :=
  ⟨precursor_mz_resolution_amended.1 _ "precursormz" (mfloat ⟨1005, 1⟩)
     (by decide) (by decide) (by decide),
   precursor_mz_resolution_amended.2.1 _ (mfloat ⟨1201, 1⟩)
     (mfloat ⟨1201, 1⟩) (by decide) (by decide) (by decide) (by decide)⟩

/-- String lower-casing is idempotent. -/
theorem lowerStr_idem (s : List Char) : lowerStr (lowerStr s) = lowerStr s := by
  unfold lowerStr
  rw [List.map_map]
  exact List.map_congr_left (fun c _ => lowerChar_idem c)

/-- Inversion of a successful `Except` bind. -/
theorem except_bind_ok {α β : Type} {e : Except String α}
    {f : α → Except String β} {b : β} (h : e >>= f = Except.ok b) :
    ∃ a, e = Except.ok a ∧ f a = Except.ok b := by
  cases e with
  | error e2 => simp [Bind.bind, Except.bind] at h
  | ok a => exact ⟨a, rfl, by simpa [Bind.bind, Except.bind] using h⟩

/-- Basic branch facts about the charge block. -/
theorem chargeBlock_of_int {m : Meta} {n : Int}
    (h : getD m "charge" = mint n) : chargeBlock m = m := by
  unfold chargeBlock
  rw [h]
  rfl

/-- The charge block is the identity when conversion fails. -/
theorem chargeBlock_of_none {m : Meta}
    (h : convert_charge_to_int (getD m "charge") = none) :
    chargeBlock m = m := by
  unfold chargeBlock
  by_cases hi : isPyInt (getD m "charge") = true
  · rw [if_pos hi]
  · rw [Bool.not_eq_true] at hi
    rw [hi]
    simp only [Bool.false_eq_true, if_false]
    rw [h]

/-- The charge block stores the converted integer when the value is not
an int and conversion succeeds. -/
theorem chargeBlock_of_conv {m : Meta} {z : Int}
    (h1 : isPyInt (getD m "charge") = false)
    (h2 : convert_charge_to_int (getD m "charge") = some z) :
    chargeBlock m = setKV m "charge" (mint z) := by
  unfold chargeBlock
  rw [h1]
  simp only [Bool.false_eq_true, if_false]
  rw [h2]

/-- Inversion of a successful harmonization into its pipeline stages. -/
theorem harmonize_inv {m m2 : Meta}
    (h : harmonize_metadata m = Except.ok m2) :
    ∃ p q, ionmodeBlock (installTables m) = Except.ok p ∧
      add_precursor_mz_metadata p = Except.ok q ∧ m2 = chargeBlock q := by
  have h1 : (ionmodeBlock (installTables m) >>= fun p =>
      add_precursor_mz_metadata p >>= fun q =>
        pure (chargeBlock q) : Except String Meta) = Except.ok m2 := h
  obtain ⟨p, hp, h2⟩ := except_bind_ok h1
  obtain ⟨q, hq, h3⟩ := except_bind_ok h2
  refine ⟨p, q, hp, hq, ?_⟩
  have h4 : (pure (chargeBlock q) : Except String Meta) =
      Except.ok (chargeBlock q) := rfl
  rw [h4] at h3
  cases h3
  rfl

/-- Assembling a harmonization run from stage fixpoints. -/
theorem harmonize_of_parts {m : Meta} (h0 : installTables m = m)
    (h1 : ionmodeBlock m = Except.ok m)
    (h2 : add_precursor_mz_metadata m = Except.ok m)
    (h3 : chargeBlock m = m) : harmonize_metadata m = Except.ok m := by
  show (ionmodeBlock (installTables m) >>= fun p =>
      add_precursor_mz_metadata p >>= fun q =>
        pure (chargeBlock q)) = Except.ok m
  rw [h0, h1]
  show (add_precursor_mz_metadata m >>= fun q =>
      pure (chargeBlock q)) = Except.ok m
  rw [h2]
  show Except.ok (chargeBlock m) = Except.ok m
  rw [h3]

/-- Inversion of the ionmode block into the value written. -/
theorem ionmodeBlock_inv {m p : Meta}
    (h : ionmodeBlock m = Except.ok p) :
    ∃ s, p = setKV m "ionmode" (mstr s) ∧
      ((∃ t, lookupKV m "ionmode" = some (mstr t) ∧ s = lowerStr t) ∨
        ((lookupKV m "ionmode" = none ∨ lookupKV m "ionmode" = some mnull) ∧
          s = "n/a".data)) := by
  unfold ionmodeBlock at h
  cases hl : lookupKV m "ionmode" with
  | none =>
      rw [hl] at h
      cases h
      exact ⟨_, rfl, Or.inr ⟨Or.inl rfl, rfl⟩⟩
  | some v =>
      rw [hl] at h
      cases v with
      | mstr t =>
          cases h
          exact ⟨_, rfl, Or.inl ⟨t, rfl, rfl⟩⟩
      | mnull =>
          cases h
          exact ⟨_, rfl, Or.inr ⟨Or.inr rfl, rfl⟩⟩
      | mint n => cases h
      | mfloat f => cases h
      | mlist xs => cases h
      | marr xs => cases h

/-- The ionmode block fixes a record whose ionmode is already a
lower-case string. -/
theorem ionmodeBlock_of_fixed {m : Meta} {s : List Char}
    (hl : lookupKV m "ionmode" = some (mstr s)) (hf : lowerStr s = s) :
    ionmodeBlock m = Except.ok m := by
  unfold ionmodeBlock
  rw [hl]
  show Except.ok (setKV m "ionmode" (mstr (lowerStr s))) = Except.ok m
  rw [hf, setKV_lookup_eq hl]

/-- Inversion of precursor resolution into its three outcomes. -/
theorem add_precursor_inv {p q : Meta}
    (h : add_precursor_mz_metadata p = Except.ok q) :
    (∃ x, convert_precursor_mz (firstCandidateVal p) = some x ∧
      q = popKV (popKV (setKV p "precursor_mz" (mfloat (pyFloatCast x)))
        "precursormz") "precursor_mass") ∨
    (∃ tok x, convert_precursor_mz (firstCandidateVal p) = none ∧
      getD p "pepmass" ≠ mnull ∧
      index0 (getD p "pepmass") = Except.ok tok ∧
      convert_precursor_mz tok = some x ∧
      q = setKV p "precursor_mz" tok) ∨
    (convert_precursor_mz (firstCandidateVal p) = none ∧
      (getD p "pepmass" = mnull ∨
        (∃ tok, index0 (getD p "pepmass") = Except.ok tok ∧
          convert_precursor_mz tok = none)) ∧
      q = p) := by
  have hdef : add_precursor_mz_metadata p =
      (match convert_precursor_mz (firstCandidateVal p) with
      | some x =>
          Except.ok (popKV (popKV (setKV p "precursor_mz"
            (mfloat (pyFloatCast x))) "precursormz") "precursor_mass")
      | none =>
          if getD p "pepmass" = mnull then Except.ok p
          else do
            let tok ← index0 (getD p "pepmass")
            match convert_precursor_mz tok with
            | some _ => Except.ok (setKV p "precursor_mz" tok)
            | none => Except.ok p) := rfl
  rw [hdef] at h
  cases hcv : convert_precursor_mz (firstCandidateVal p) with
  | some x =>
      rw [hcv] at h
      cases h
      exact Or.inl ⟨x, rfl, rfl⟩
  | none =>
      rw [hcv] at h
      by_cases hpe : getD p "pepmass" = mnull
      · rw [if_pos hpe] at h
        cases h
        exact Or.inr (Or.inr ⟨rfl, Or.inl hpe, rfl⟩)
      · rw [if_neg hpe] at h
        obtain ⟨tok, hidx, h4⟩ := except_bind_ok h
        cases hct : convert_precursor_mz tok with
        | some x2 =>
            rw [hct] at h4
            cases h4
            exact Or.inr (Or.inl ⟨tok, x2, rfl, hpe, hidx, hct, rfl⟩)
        | none =>
            rw [hct] at h4
            cases h4
            exact Or.inr (Or.inr ⟨rfl, Or.inr ⟨tok, hidx, hct⟩, rfl⟩)

/-- The charge block either leaves the record unchanged or stores an
integer charge. -/
theorem chargeBlock_cases (m : Meta) :
    ((∃ n : Int, getD m "charge" = mint n) ∧ chargeBlock m = m) ∨
    (∃ z : Int, chargeBlock m = setKV m "charge" (mint z)) ∨
    (convert_charge_to_int (getD m "charge") = none ∧ chargeBlock m = m) := by
  by_cases hi : ∃ n : Int, getD m "charge" = mint n
  · obtain ⟨n, hn⟩ := hi
    exact Or.inl ⟨⟨n, hn⟩, chargeBlock_of_int hn⟩
  · have hif : isPyInt (getD m "charge") = false := by
      cases hg : getD m "charge" <;> first
        | rfl
        | exact absurd ⟨_, hg⟩ hi
    cases hcv : convert_charge_to_int (getD m "charge") with
    | some z => exact Or.inr (Or.inl ⟨z, chargeBlock_of_conv hif hcv⟩)
    | none => exact Or.inr (Or.inr ⟨rfl, chargeBlock_of_none hcv⟩)

/-- Lookups of keys other than `charge` pass through the charge block. -/
theorem lookupKV_chargeBlock_ne {m : Meta} {k : String}
    (h : k ≠ "charge") : lookupKV (chargeBlock m) k = lookupKV m k := by
  rcases chargeBlock_cases m with ⟨_, he⟩ | ⟨z, he⟩ | ⟨_, he⟩ <;> rw [he]
  · exact lookupKV_setKV_ne m (fun hc => h hc.symm) _

/-- The charge block is idempotent. -/
theorem chargeBlock_idem (m : Meta) :
    chargeBlock (chargeBlock m) = chargeBlock m := by
  rcases chargeBlock_cases m with ⟨⟨n, hn⟩, he⟩ | ⟨z, he⟩ | ⟨_, he⟩
  · rw [he, he]
  · rw [he]
    apply chargeBlock_of_int
    rw [getD, lookupKV_setKV_self]
    rfl
  · rw [he, he]

/-- Claim C6: the charge block overwrites `charge` only when conversion
to an integer succeeds: an integer charge is left unchanged, a failed
conversion leaves the record unchanged (and raises nothing: the block is
a total function), a successful conversion of a non-integer value stores
the integer; in particular `"2+"` and `"2"` become the integer `2` and
`"not-a-charge"` is left in place. -/
theorem charge_coercion_spec :
    (∀ (m : Meta) (n : Int), getD m "charge" = mint n → chargeBlock m = m) ∧
    (∀ m : Meta, convert_charge_to_int (getD m "charge") = none →
      chargeBlock m = m) ∧
    (∀ (m : Meta) (z : Int), (∀ n : Int, getD m "charge" ≠ mint n) →
      convert_charge_to_int (getD m "charge") = some z →
      chargeBlock m = setKV m "charge" (mint z)) ∧
    chargeBlock [("charge", mstr "2+".data)] = [("charge", mint 2)] ∧
    chargeBlock [("charge", mstr "2".data)] = [("charge", mint 2)] ∧
    chargeBlock [("charge", mstr "not-a-charge".data)] =
      [("charge", mstr "not-a-charge".data)] := by
  refine ⟨?_, ?_, ?_, by decide, by decide, by decide⟩
  · intro m n h
    exact chargeBlock_of_int h
  · intro m h
    exact chargeBlock_of_none h
  · intro m z h1 h2
    have hif : isPyInt (getD m "charge") = false := by
      cases hg : getD m "charge" <;> first
        | rfl
        | exact absurd hg (h1 _)
    exact chargeBlock_of_conv hif h2

/-- Claim C6 witness at concrete records for each branch. -/
theorem charge_coercion_spec_witness :
    chargeBlock [("charge", mint 3)] = [("charge", mint 3)] ∧
    chargeBlock [("charge", mstr "xx".data)] = [("charge", mstr "xx".data)] ∧
    chargeBlock [("charge", mstr "-1".data)] =
      setKV [("charge", mstr "-1".data)] "charge" (mint (-1)) :=
  ⟨charge_coercion_spec.1 _ 3 (by decide),
   charge_coercion_spec.2.1 _ (by decide),
   charge_coercion_spec.2.2.1 _ (-1)
     (fun n => by simp [getD, lookupKV]) (by decide)⟩

/-- Lookups of keys other than the precursor fields pass through
precursor resolution. -/
theorem lookupKV_addPrecursor_ne {p q : Meta}
    (hq : add_precursor_mz_metadata p = Except.ok q) {k : String}
    (h1 : k ≠ "precursor_mz") (h2 : k ≠ "precursormz")
    (h3 : k ≠ "precursor_mass") : lookupKV q k = lookupKV p k := by
  rcases add_precursor_inv hq with ⟨x, _, hqe⟩ |
    ⟨tok, x, _, _, _, _, hqe⟩ | ⟨_, _, hqe⟩ <;> subst hqe
  · rw [lookupKV_popKV_ne _ (fun hc => h3 hc.symm),
      lookupKV_popKV_ne _ (fun hc => h2 hc.symm),
      lookupKV_setKV_ne _ (fun hc => h1 hc.symm)]
  · rw [lookupKV_setKV_ne _ (fun hc => h1 hc.symm)]
  · rfl

/-- Keys of the harmonized record are canonical and duplicate-free. -/
theorem harmonize_keys_canonical {m m2 : Meta}
    (h : harmonize_metadata m = Except.ok m2) :
    (∀ k ∈ keysOf m2, normKey k = k) ∧ (keysOf m2).Nodup := by
  obtain ⟨p, q, hp, hq, hm2⟩ := harmonize_inv h
  obtain ⟨s, hps, _⟩ := ionmodeBlock_inv hp
  have hpn : (∀ k ∈ keysOf p, normKey k = k) ∧ (keysOf p).Nodup := by
    subst hps
    constructor
    · intro k hk
      rw [mem_keysOf_setKV] at hk
      rcases hk with rfl | hk
      · decide
      · exact keysOf_installTables_norm m k hk
    · exact nodup_keysOf_setKV (nodup_keysOf_installTables m)
  have hqn : (∀ k ∈ keysOf q, normKey k = k) ∧ (keysOf q).Nodup := by
    rcases add_precursor_inv hq with ⟨x, _, hqe⟩ |
      ⟨tok, x, _, _, _, _, hqe⟩ | ⟨_, _, hqe⟩ <;> subst hqe
    · constructor
      · intro k hk
        have hk2 := mem_keysOf_popKV (mem_keysOf_popKV hk)
        rw [mem_keysOf_setKV] at hk2
        rcases hk2 with rfl | hk2
        · decide
        · exact hpn.1 k hk2
      · exact nodup_keysOf_popKV (nodup_keysOf_popKV
          (nodup_keysOf_setKV hpn.2))
    · constructor
      · intro k hk
        rw [mem_keysOf_setKV] at hk
        rcases hk with rfl | hk
        · decide
        · exact hpn.1 k hk
      · exact nodup_keysOf_setKV hpn.2
    · exact hpn
  subst hm2
  rcases chargeBlock_cases q with ⟨_, he⟩ | ⟨z, he⟩ | ⟨_, he⟩ <;> rw [he]
  · exact hqn
  · constructor
    · intro k hk
      rw [mem_keysOf_setKV] at hk
      rcases hk with rfl | hk
      · decide
      · exact hqn.1 k hk
    · exact nodup_keysOf_setKV hqn.2
  · exact hqn

/-- After a successful harmonization the stored ionmode is a fixed
point of lower-casing. -/
theorem harmonize_ionmode_fixed {m m2 : Meta}
    (h : harmonize_metadata m = Except.ok m2) :
    ∃ s, lookupKV m2 "ionmode" = some (mstr s) ∧ lowerStr s = s := by
  obtain ⟨p, q, hp, hq, hm2⟩ := harmonize_inv h
  obtain ⟨s, hps, hcase⟩ := ionmodeBlock_inv hp
  have hsf : lowerStr s = s := by
    rcases hcase with ⟨t, _, rfl⟩ | ⟨_, rfl⟩
    · exact lowerStr_idem t
    · decide
  have hlp : lookupKV p "ionmode" = some (mstr s) := by
    rw [hps]; exact lookupKV_setKV_self _ _ _
  refine ⟨s, ?_, hsf⟩
  rw [hm2, lookupKV_chargeBlock_ne (by decide),
    lookupKV_addPrecursor_ne hq (by decide) (by decide) (by decide), hlp]

/-- Claim C5: after every successful harmonization pass the `ionmode`
key is present with a string value: a present non-null (string) value is
replaced by its lower-cased form, an absent or null value by the
sentinel `"n/a"` (the value is read after the key-table installation,
the first pipeline stage); and the ionmode normalization step is
idempotent. -/
theorem harmonize_ionmode_spec :
    (∀ m m2 : Meta, harmonize_metadata m = Except.ok m2 →
      (∃ s, lookupKV m2 "ionmode" = some (mstr s)) ∧
      (∀ t, lookupKV (installTables m) "ionmode" = some (mstr t) →
        lookupKV m2 "ionmode" = some (mstr (lowerStr t))) ∧
      ((lookupKV (installTables m) "ionmode" = none ∨
        lookupKV (installTables m) "ionmode" = some mnull) →
        lookupKV m2 "ionmode" = some (mstr "n/a".data))) ∧
    (∀ m p : Meta, ionmodeBlock m = Except.ok p →
      ionmodeBlock p = Except.ok p) := by
  constructor
  · intro m m2 h
    obtain ⟨p, q, hp, hq, hm2⟩ := harmonize_inv h
    obtain ⟨s, hps, hcase⟩ := ionmodeBlock_inv hp
    have hlp : lookupKV p "ionmode" = some (mstr s) := by
      rw [hps]; exact lookupKV_setKV_self _ _ _
    have hl2 : lookupKV m2 "ionmode" = some (mstr s) := by
      rw [hm2, lookupKV_chargeBlock_ne (by decide),
        lookupKV_addPrecursor_ne hq (by decide) (by decide) (by decide), hlp]
    refine ⟨⟨s, hl2⟩, ?_, ?_⟩
    · intro t ht
      rcases hcase with ⟨t2, ht2, rfl⟩ | ⟨hnone, rfl⟩
      · rw [ht2] at ht
        cases ht
        exact hl2
      · rcases hnone with hn | hn <;> rw [hn] at ht <;> cases ht
    · intro hnone2
      rcases hcase with ⟨t2, ht2, rfl⟩ | ⟨hnone, rfl⟩
      · rcases hnone2 with hn | hn <;> rw [ht2] at hn <;> cases hn
      · exact hl2
  · intro m p hp
    obtain ⟨s, hps, hcase⟩ := ionmodeBlock_inv hp
    have hsf : lowerStr s = s := by
      rcases hcase with ⟨t, _, rfl⟩ | ⟨_, rfl⟩
      · exact lowerStr_idem t
      · decide
    have hlp : lookupKV p "ionmode" = some (mstr s) := by
      rw [hps]; exact lookupKV_setKV_self _ _ _
    exact ionmodeBlock_of_fixed hlp hsf

/-- Claim C5 witness at concrete records: an upper-case ionmode is
lower-cased, a missing one becomes the sentinel, and the normalization
step fixes its own output. -/
theorem harmonize_ionmode_spec_witness :
    lookupKV [("ionmode", mstr "positive".data)] "ionmode" =
      some (mstr (lowerStr "POSITIVE".data)) ∧
    lookupKV [("ionmode", mstr "n/a".data)] "ionmode" =
      some (mstr "n/a".data) ∧
    ionmodeBlock [("ionmode", mstr "n/a".data)] =
      Except.ok [("ionmode", mstr "n/a".data)] :=
  ⟨((harmonize_ionmode_spec.1 [("ionmode", mstr "POSITIVE".data)] _
      (by decide)).2.1 "POSITIVE".data (by decide)),
   ((harmonize_ionmode_spec.1 [] _ (by decide)).2.2 (Or.inl (by decide))),
   (harmonize_ionmode_spec.2 [] _ (by decide))⟩

/-- A marker search fails exactly when the marker is not a substring. -/
theorem dropAfterMarker_eq_none {s : List Char} (h : ¬ markerL <:+: s) :
    dropAfterMarker s = none := by
  induction s with
  | nil => rfl
  | cons c rest ih =>
      unfold dropAfterMarker
      rw [if_neg (fun hp =>
        h (List.IsPrefix.isInfix (List.isPrefixOf_iff_prefix.mp hp)))]
      exact ih (fun hi => h (List.infix_cons hi))

/-- Iterating the marker search on a marker-free string is the identity. -/
theorem afterLastFuel_of_none {f : Nat} {s : List Char}
    (h : dropAfterMarker s = none) : afterLastFuel f s = s := by
  cases f with
  | zero => rfl
  | succ f2 =>
      unfold afterLastFuel
      rw [h]

/-- The last-marker split of a marker-free string is the identity. -/
theorem afterLastMarker_of_none {s : List Char}
    (h : dropAfterMarker s = none) : afterLastMarker s = s :=
  afterLastFuel_of_none h

/-- The first marker of the canonical quoted form sits right after the
quote. -/
theorem dropAfterMarker_quoted (x : List Char) :
    dropAfterMarker (('"' :: markerL) ++ x) = some x := by
  show dropAfterMarker
    ('"' :: 'I' :: 'n' :: 'C' :: 'h' :: 'I' :: '=' :: x) = some x
  unfold dropAfterMarker
  rw [if_neg (by simp [markerL, List.isPrefixOf])]
  unfold dropAfterMarker
  rw [if_pos (by simp [markerL, List.isPrefixOf])]
  simp [markerL]

/-- The tail split of the canonical quoted form. -/
theorem afterLastMarker_quoted {x : List Char}
    (h : dropAfterMarker x = none) :
    afterLastMarker (('"' :: markerL) ++ x) = x := by
  unfold afterLastMarker
  have hlen : (('"' :: markerL) ++ x).length = x.length + 7 := by
    simp [markerL]
  rw [hlen]
  show (match dropAfterMarker (('"' :: markerL) ++ x) with
    | none => ('"' :: markerL) ++ x
    | some t => afterLastFuel (x.length + 6) t) = x
  rw [dropAfterMarker_quoted]
  exact afterLastFuel_of_none h

/-- Peeling one non-I character off a marker occurrence. -/
theorem marker_infix_cons_elim {c : Char} {t : List Char} (hc : c ≠ 'I')
    (h : markerL <:+: c :: t) : markerL <:+: t := by
  rcases List.infix_cons_iff.mp h with hp | hi
  · exfalso
    obtain ⟨ts, hts⟩ := hp
    rw [show markerL = 'I' :: ['n', 'C', 'h', 'I', '='] from rfl] at hts
    rw [List.cons_append] at hts
    injection hts with h1 h2
    exact hc h1.symm
  · exact hi

/-- A marker occurrence cannot use a final quote character. -/
theorem marker_infix_unquote {l : List Char}
    (h : markerL <:+: l ++ ['"']) : markerL <:+: l := by
  rw [← List.reverse_infix] at h ⊢
  rw [List.reverse_append] at h
  rw [show (['"'] : List Char).reverse = ['"'] from rfl] at h
  rw [show (['"'] : List Char) ++ l.reverse = '"' :: l.reverse from rfl] at h
  rcases List.infix_cons_iff.mp h with hp | hi
  · exfalso
    obtain ⟨ts, hts⟩ := hp
    rw [show markerL.reverse = '=' :: ['I', 'h', 'C', 'n', 'I'] from rfl] at hts
    rw [List.cons_append] at hts
    injection hts with h1 h2
    exact absurd h1 (by decide)
  · exact hi

/-- No marker occurs in the canonical payload when none occurs in its
variable part. -/
theorem not_marker_infix_body {rest : List Char}
    (hm : ¬ markerL <:+: rest) :
    ¬ markerL <:+: ('1' :: 'S' :: '/' :: (rest ++ ['"'])) := by
  intro h
  have h2 := marker_infix_cons_elim (by decide) h
  have h3 := marker_infix_cons_elim (by decide) h2
  have h4 := marker_infix_cons_elim (by decide) h3
  exact hm (marker_infix_unquote h4)

/-- Stripping a quoted string with no surrounding whitespace is the
identity. -/
theorem pyStrip_quoted (mid : List Char) :
    pyStrip ('"' :: (mid ++ ['"'])) = '"' :: (mid ++ ['"']) := by
  unfold pyStrip
  rw [List.dropWhile_cons, if_neg (by decide)]
  have hrev : ('"' :: (mid ++ ['"'])).reverse = '"' :: (mid.reverse ++ ['"']) := by
    simp [List.reverse_cons, List.reverse_append]
  rw [hrev, List.dropWhile_cons, if_neg (by decide), ← hrev,
    List.reverse_reverse]

/-- Stripping the canonical quoted InChI string is the identity. -/
theorem pyStrip_canonical (rest : List Char) :
    pyStrip (('"' :: markerL) ++ ('1' :: 'S' :: '/' :: (rest ++ ['"']))) =
      ('"' :: markerL) ++ ('1' :: 'S' :: '/' :: (rest ++ ['"'])) := by
  have hshape : ('"' :: markerL) ++ ('1' :: 'S' :: '/' :: (rest ++ ['"'])) =
      '"' :: ((markerL ++ ('1' :: 'S' :: '/' :: rest)) ++ ['"']) := by
    simp [markerL]
  rw [hshape]
  exact pyStrip_quoted _

/-- A space-free string passes the space-removal unchanged. -/
theorem filter_ne_space_eq {s : List Char} (h : ∀ c ∈ s, c ≠ ' ') :
    s.filter (fun c => c ≠ ' ') = s := by
  apply List.filter_eq_self.mpr
  intro a ha
  exact decide_eq_true (h a ha)

/-- Appending a quote makes the string end with a quote. -/
theorem pyEndsWith_quote (l : List Char) :
    pyEndsWith (l ++ ['"']) ['"'] = true := by
  unfold pyEndsWith List.isSuffixOf
  rw [List.reverse_append]
  simp [List.isPrefixOf]

/-- Non-whitespace characters are not the space character. -/
theorem ne_space_of_not_ws {c : Char} (h : c.isWhitespace = false) :
    c ≠ ' ' := by
  intro hc
  subst hc
  cases h

/-- The canonical quoted form is never one of the sentinel entries. -/
theorem canonical_not_sentinel (x : List Char) :
    empty_entry_types.any (fun e =>
      pyEq (mstr (('"' :: markerL) ++ ('1' :: 'S' :: '/' :: x))) e) = false := by
  rw [List.any_eq_false]
  intro e he
  fin_cases he <;> simp [pyEq, markerL]

/-- Evaluation of the repair on a space-free string whose payload does
not trigger the SMILES rescue. -/
theorem cleanValInchi_str_eval (conv : List Char → Except String (List Char))
    (rescue : Bool) {s : List Char} {c0 : Char} {t : List Char}
    (hsent : empty_entry_types.any (fun e => pyEq (mstr s) e) = false)
    (hfil : s.filter (fun c => c ≠ ' ') = s)
    (hsplit : afterLastMarker s = c0 :: t)
    (hc0 : c0 ∉ (['C', 'c', 'O', 'N'] : List Char)) :
    cleanValInchi conv rescue (mstr s) =
      Except.ok (mstr (inchiRepairCore (afterLastMarker (pyStrip s)))) := by
  unfold cleanValInchi
  rw [hsent]
  simp only [Bool.false_eq_true, if_false]
  show (let s1 := s.filter (fun c => c ≠ ' ')
    match (afterLastMarker s1).head? with
    | none => Except.error "IndexError"
    | some c0 =>
        (inchiRescueStage conv rescue s1 c0).map
          (fun s2 => mstr (inchiRepairCore (afterLastMarker (pyStrip s2))))) =
    Except.ok (mstr (inchiRepairCore (afterLastMarker (pyStrip s))))
  simp only [hfil]
  rw [hsplit]
  show ((inchiRescueStage conv rescue s c0).map
    (fun s2 => mstr (inchiRepairCore (afterLastMarker (pyStrip s2))))) =
    Except.ok (mstr (inchiRepairCore (afterLastMarker (pyStrip s))))
  have hstage : inchiRescueStage conv rescue s c0 = Except.ok s := by
    unfold inchiRescueStage
    rw [if_neg hc0]
  rw [hstage]
  rfl

/-- Claim C8: a value already in the canonical quoted form
`"InChI=1S/..."` — quoted, no internal whitespace, no further marker
occurrence in the variable part, payload starting with `1S/` (hence not
with C, c, O, N) — is left unchanged by the repair, for every converter
and either rescue setting: the repair is idempotent on the
canonical-form branch. -/
theorem clean_inchis_canonical_noop
    (conv : List Char → Except String (List Char)) (rescue : Bool)
    (rest : List Char) (hm : ¬ markerL <:+: rest)
    (hws : ∀ c ∈ rest, c.isWhitespace = false) :
    cleanValInchi conv rescue
      (mstr (('"' :: markerL) ++ ('1' :: 'S' :: '/' :: (rest ++ ['"'])))) =
      Except.ok
        (mstr (('"' :: markerL) ++ ('1' :: 'S' :: '/' :: (rest ++ ['"'])))) := by
  have hbody : dropAfterMarker ('1' :: 'S' :: '/' :: (rest ++ ['"'])) = none :=
    dropAfterMarker_eq_none (not_marker_infix_body hm)
  have hsplit : afterLastMarker
      (('"' :: markerL) ++ ('1' :: 'S' :: '/' :: (rest ++ ['"']))) =
      '1' :: 'S' :: '/' :: (rest ++ ['"']) := afterLastMarker_quoted hbody
  have hfil : (('"' :: markerL) ++
      ('1' :: 'S' :: '/' :: (rest ++ ['"']))).filter (fun c => c ≠ ' ') =
      ('"' :: markerL) ++ ('1' :: 'S' :: '/' :: (rest ++ ['"'])) := by
    apply filter_ne_space_eq
    intro a ha
    rw [show markerL = 'I' :: ['n', 'C', 'h', 'I', '='] from rfl] at ha
    simp only [List.cons_append, List.nil_append, List.mem_cons,
      List.mem_append, List.mem_singleton] at ha
    rcases ha with rfl | rfl | rfl | rfl | rfl | rfl | rfl | rfl | rfl | rfl |
      har | rfl | h0
    · decide
    · decide
    · decide
    · decide
    · decide
    · decide
    · decide
    · decide
    · decide
    · decide
    · exact ne_space_of_not_ws (hws _ har)
    · decide
    · cases h0
  have heval := cleanValInchi_str_eval conv rescue
    (canonical_not_sentinel (rest ++ ['"'])) hfil hsplit (by decide)
  rw [heval, pyStrip_canonical, hsplit]
  have hcore : inchiRepairCore ('1' :: 'S' :: '/' :: (rest ++ ['"'])) =
      ('"' :: markerL) ++ ('1' :: 'S' :: '/' :: (rest ++ ['"'])) := by
    unfold inchiRepairCore
    have hend : pyEndsWith ('1' :: 'S' :: '/' :: (rest ++ ['"'])) ['"'] = true := by
      rw [show '1' :: 'S' :: '/' :: (rest ++ ['"']) =
        ('1' :: 'S' :: '/' :: rest) ++ ['"'] by simp]
      exact pyEndsWith_quote _
    rw [hend, if_pos rfl]
  rw [hcore]

/-- Claim C8 witness at the canonical string for ethanol. -/
theorem clean_inchis_canonical_noop_witness :
    cleanValInchi convFail true
      (mstr (('"' :: markerL) ++
        ('1' :: 'S' :: '/' :: (['C', '2', 'H', '6', 'O'] ++ ['"'])))) =
      Except.ok (mstr (('"' :: markerL) ++
        ('1' :: 'S' :: '/' :: (['C', '2', 'H', '6', 'O'] ++ ['"'])))) :=
  clean_inchis_canonical_noop convFail true ['C', '2', 'H', '6', 'O']
    (by decide) (by decide)

/-- Forward evaluation of the float branch of precursor resolution. -/
theorem add_precursor_float_branch {m : Meta} {x : MValue}
    (h : convert_precursor_mz (firstCandidateVal m) = some x) :
    add_precursor_mz_metadata m =
      Except.ok (popKV (popKV (setKV m "precursor_mz"
        (mfloat (pyFloatCast x))) "precursormz") "precursor_mass") := by
  have hdef : add_precursor_mz_metadata m =
      (match convert_precursor_mz (firstCandidateVal m) with
      | some x =>
          Except.ok (popKV (popKV (setKV m "precursor_mz"
            (mfloat (pyFloatCast x))) "precursormz") "precursor_mass")
      | none =>
          if getD m "pepmass" = mnull then Except.ok m
          else do
            let tok ← index0 (getD m "pepmass")
            match convert_precursor_mz tok with
            | some _ => Except.ok (setKV m "precursor_mz" tok)
            | none => Except.ok m) := rfl
  rw [hdef, h]

/-- Forward evaluation of the empty no-write branch. -/
theorem add_precursor_none_null {m : Meta}
    (hfc : convert_precursor_mz (firstCandidateVal m) = none)
    (hpe : getD m "pepmass" = mnull) :
    add_precursor_mz_metadata m = Except.ok m := by
  have hdef : add_precursor_mz_metadata m =
      (match convert_precursor_mz (firstCandidateVal m) with
      | some x =>
          Except.ok (popKV (popKV (setKV m "precursor_mz"
            (mfloat (pyFloatCast x))) "precursormz") "precursor_mass")
      | none =>
          if getD m "pepmass" = mnull then Except.ok m
          else do
            let tok ← index0 (getD m "pepmass")
            match convert_precursor_mz tok with
            | some _ => Except.ok (setKV m "precursor_mz" tok)
            | none => Except.ok m) := rfl
  rw [hdef, hfc, if_pos hpe]

/-- Forward evaluation of the uncoercible-token no-write branch. -/
theorem add_precursor_none_tok {m : Meta} {tok : MValue}
    (hfc : convert_precursor_mz (firstCandidateVal m) = none)
    (hpn : getD m "pepmass" ≠ mnull)
    (hidx : index0 (getD m "pepmass") = Except.ok tok)
    (hct : convert_precursor_mz tok = none) :
    add_precursor_mz_metadata m = Except.ok m := by
  have hdef : add_precursor_mz_metadata m =
      (match convert_precursor_mz (firstCandidateVal m) with
      | some x =>
          Except.ok (popKV (popKV (setKV m "precursor_mz"
            (mfloat (pyFloatCast x))) "precursormz") "precursor_mass")
      | none =>
          if getD m "pepmass" = mnull then Except.ok m
          else do
            let tok ← index0 (getD m "pepmass")
            match convert_precursor_mz tok with
            | some _ => Except.ok (setKV m "precursor_mz" tok)
            | none => Except.ok m) := rfl
  rw [hdef, hfc, if_neg hpn, hidx]
  simp only [bind, Except.bind]
  rw [hct]

/-- Reading back a known entry. -/
theorem getD_of_lookup {m : Meta} {k : String} {v : MValue}
    (h : lookupKV m k = some v) : getD m k = v := by
  rw [getD, h]
  rfl

/-- Reading an absent key gives `None`. -/
theorem getD_of_none {m : Meta} {k : String}
    (h : lookupKV m k = none) : getD m k = mnull := by
  rw [getD, h]
  rfl

/-- A successful lookup witnesses key membership. -/
theorem mem_keysOf_of_lookup {m : Meta} {k : String} {v : MValue}
    (h : lookupKV m k = some v) : k ∈ keysOf m :=
  List.mem_map.mpr ⟨(k, v), mem_of_lookupKV h, rfl⟩

/-- The candidate search stops at the first candidate when present. -/
theorem gfce_of_mem_first {keys : List String} {c : String}
    (rest : List String) (h : c ∈ keys) :
    get_first_common_element keys (c :: rest) = some c := by
  unfold get_first_common_element
  exact List.find?_cons_of_pos _ (decide_eq_true h)

/-- The candidate search only depends on candidate membership. -/
theorem gfce_congr {k1 k2 cands : List String}
    (h : ∀ c ∈ cands, (c ∈ k1 ↔ c ∈ k2)) :
    get_first_common_element k1 cands = get_first_common_element k2 cands := by
  unfold get_first_common_element
  induction cands with
  | nil => rfl
  | cons c rest ih =>
      have hc := h c (List.mem_cons_self _ _)
      by_cases hm : c ∈ k1
      · rw [@List.find?_cons_of_pos _ (fun x => decide (x ∈ k1)) c rest
            (decide_eq_true hm),
          @List.find?_cons_of_pos _ (fun x => decide (x ∈ k2)) c rest
            (decide_eq_true (hc.mp hm))]
      · rw [@List.find?_cons_of_neg _ (fun x => decide (x ∈ k1)) c rest
            (by simpa using hm),
          @List.find?_cons_of_neg _ (fun x => decide (x ∈ k2)) c rest
            (by simpa using fun h2 => hm (hc.mpr h2))]
        exact ih (fun c2 hc2 => h c2 (List.mem_cons_of_mem _ hc2))

/-- Key membership is unchanged by the charge block for non-charge keys. -/
theorem mem_keysOf_chargeBlock_iff {m : Meta} {k : String}
    (hk : k ≠ "charge") : (k ∈ keysOf (chargeBlock m)) ↔ k ∈ keysOf m := by
  rcases chargeBlock_cases m with ⟨_, he⟩ | ⟨z, he⟩ | ⟨_, he⟩ <;> rw [he]
  rw [mem_keysOf_setKV]
  constructor
  · rintro (rfl | h2)
    · exact absurd rfl hk
    · exact h2
  · exact Or.inr

/-- The first-candidate value is unchanged by the charge block. -/
theorem firstCandidateVal_chargeBlock (m : Meta) :
    firstCandidateVal (chargeBlock m) = firstCandidateVal m := by
  unfold firstCandidateVal
  have hg : get_first_common_element (keysOf (chargeBlock m))
      (default_key :: accepted_keys) =
      get_first_common_element (keysOf m) (default_key :: accepted_keys) := by
    apply gfce_congr
    intro c hc
    apply mem_keysOf_chargeBlock_iff
    fin_cases hc <;> decide
  rw [hg]
  cases hk : get_first_common_element (keysOf m)
      (default_key :: accepted_keys) with
  | none => rfl
  | some k =>
      have hkm : k ∈ default_key :: accepted_keys :=
        List.mem_of_find?_eq_some hk
      have hkc : k ≠ "charge" := by
        fin_cases hkm <;> decide
      show (lookupKV (chargeBlock m) k).getD mnull =
        (lookupKV m k).getD mnull
      rw [lookupKV_chargeBlock_ne hkc]

/-- The ionmode stage of a pass keeps keys duplicate-free. -/
theorem ionmode_stage_nodup {m p : Meta}
    (hp : ionmodeBlock (installTables m) = Except.ok p) :
    (keysOf p).Nodup := by
  obtain ⟨s, rfl, _⟩ := ionmodeBlock_inv hp
  exact nodup_keysOf_setKV (nodup_keysOf_installTables m)

/-- Claim C2 counterexample: harmonization is not idempotent.  On a
record with the uncoercible alias `precursormz = "N/A"` and `pepmass =
(120.1, 5)` the first pass stores the pepmass-derived mass and keeps the
alias; the second pass resolves the now-present `precursor_mz` through
the float branch and deletes the stale alias key, so the two outputs
differ. -/
theorem harmonize_idempotence_cex :
    harmonize_metadata
      [("precursormz", mstr "N/A".data),
       ("pepmass", mlist [sfloat ⟨1201, 1⟩, sint 5])] = Except.ok
      [("precursormz", mstr "N/A".data),
       ("pepmass", mlist [sfloat ⟨1201, 1⟩, sint 5]),
       ("ionmode", mstr "n/a".data),
       ("precursor_mz", mfloat ⟨1201, 1⟩)] ∧
    harmonize_metadata
      [("precursormz", mstr "N/A".data),
       ("pepmass", mlist [sfloat ⟨1201, 1⟩, sint 5]),
       ("ionmode", mstr "n/a".data),
       ("precursor_mz", mfloat ⟨1201, 1⟩)] = Except.ok
      [("pepmass", mlist [sfloat ⟨1201, 1⟩, sint 5]),
       ("ionmode", mstr "n/a".data),
       ("precursor_mz", mfloat ⟨1201, 1⟩)] ∧
    ([("precursormz", mstr "N/A".data),
      ("pepmass", mlist [sfloat ⟨1201, 1⟩, sint 5]),
      ("ionmode", mstr "n/a".data),
      ("precursor_mz", mfloat ⟨1201, 1⟩)] : Meta) ≠
    [("pepmass", mlist [sfloat ⟨1201, 1⟩, sint 5]),
     ("ionmode", mstr "n/a".data),
     ("precursor_mz", mfloat ⟨1201, 1⟩)] :=
  ⟨by decide, by decide, by decide⟩

/-- Claim C2 (amended): the output of a second successful harmonization
pass is a fixpoint — a third pass returns it unchanged.  (A single pass
need not be idempotent: a pepmass-resolved record changes once more when
the stored token is float-cast and stale alias keys are deleted.) -/
theorem harmonize_second_pass_fixpoint {m m1 m2 : Meta}
    (h1 : harmonize_metadata m = Except.ok m1)
    (h2 : harmonize_metadata m1 = Except.ok m2) :
    harmonize_metadata m2 = Except.ok m2 := by
  have hcan1 := harmonize_keys_canonical h1
  obtain ⟨s1, hion1, hfix1⟩ := harmonize_ionmode_fixed h1
  obtain ⟨p0, q0, hp0, hq0, hm1eq⟩ := harmonize_inv h1
  have hnodp0 : (keysOf p0).Nodup := ionmode_stage_nodup hp0
  obtain ⟨p1, q2, hp1, hq2, hm2eq⟩ := harmonize_inv h2
  rw [installTables_fixed hcan1.2 hcan1.1] at hp1
  have hp1m : p1 = m1 := by
    have hb := ionmodeBlock_of_fixed hion1 hfix1
    rw [hb] at hp1
    cases hp1
    rfl
  rw [hp1m] at hq2
  rcases add_precursor_inv hq0 with
    ⟨x0, hcv0, hq0eq⟩ | ⟨tok0, x0, hcv0, hpn0, hidx0, hct0, hq0eq⟩ |
    ⟨hcv0, hrest0, hq0eq⟩
  · -- pass 1 took the float branch: pass 2 is a no-op, so m2 = m1
    have hq0pm : lookupKV q0 "precursor_mz" =
        some (mfloat (pyFloatCast x0)) := by
      rw [hq0eq, lookupKV_popKV_ne _ (by decide),
        lookupKV_popKV_ne _ (by decide), lookupKV_setKV_self]
    have hq0a1 : lookupKV q0 "precursormz" = none := by
      rw [hq0eq, lookupKV_popKV_ne _ (by decide)]
      exact lookupKV_popKV_self (nodup_keysOf_setKV hnodp0)
    have hq0a2 : lookupKV q0 "precursor_mass" = none := by
      rw [hq0eq]
      exact lookupKV_popKV_self
        (nodup_keysOf_popKV (nodup_keysOf_setKV hnodp0))
    have hm1pm : lookupKV m1 "precursor_mz" =
        some (mfloat (pyFloatCast x0)) := by
      rw [hm1eq, lookupKV_chargeBlock_ne (by decide), hq0pm]
    have hm1a1 : lookupKV m1 "precursormz" = none := by
      rw [hm1eq, lookupKV_chargeBlock_ne (by decide), hq0a1]
    have hm1a2 : lookupKV m1 "precursor_mass" = none := by
      rw [hm1eq, lookupKV_chargeBlock_ne (by decide), hq0a2]
    have hfc1 : firstCandidateVal m1 = mfloat (pyFloatCast x0) := by
      have hg : get_first_common_element (keysOf m1)
          (default_key :: accepted_keys) = some default_key :=
        gfce_of_mem_first accepted_keys (mem_keysOf_of_lookup hm1pm)
      unfold firstCandidateVal
      rw [hg]
      exact getD_of_lookup hm1pm
    have hadd1 : add_precursor_mz_metadata m1 = Except.ok m1 := by
      have hcv : convert_precursor_mz (firstCandidateVal m1) =
          some (mfloat (pyFloatCast x0)) := by
        rw [hfc1]
        rfl
      rw [add_precursor_float_branch hcv]
      have hset : setKV m1 "precursor_mz"
          (mfloat (pyFloatCast (mfloat (pyFloatCast x0)))) = m1 :=
        setKV_lookup_eq hm1pm
      rw [hset, popKV_not_mem hm1a1, popKV_not_mem hm1a2]
    rw [hadd1] at hq2
    cases hq2
    have hm2m1 : m2 = m1 := by
      rw [hm2eq, hm1eq, chargeBlock_idem]
    rw [hm2m1] at h2 ⊢
    exact h2
  · -- pass 1 took the pepmass fallback: pass 2 float-casts and cleans,
    -- and its output is then a fixpoint of pass 3
    have hq0pm : lookupKV q0 "precursor_mz" = some tok0 := by
      rw [hq0eq, lookupKV_setKV_self]
    have hm1pm : lookupKV m1 "precursor_mz" = some tok0 := by
      rw [hm1eq, lookupKV_chargeBlock_ne (by decide), hq0pm]
    have hfc1 : firstCandidateVal m1 = tok0 := by
      have hg : get_first_common_element (keysOf m1)
          (default_key :: accepted_keys) = some default_key :=
        gfce_of_mem_first accepted_keys (mem_keysOf_of_lookup hm1pm)
      unfold firstCandidateVal
      rw [hg]
      exact getD_of_lookup hm1pm
    have hcv1 : convert_precursor_mz (firstCandidateVal m1) = some x0 := by
      rw [hfc1, hct0]
    have hadd1 := add_precursor_float_branch hcv1
    rw [hadd1] at hq2
    cases hq2
    have hcan2 := harmonize_keys_canonical h2
    obtain ⟨s2v, hion2, hfix2⟩ := harmonize_ionmode_fixed h2
    have hm2pm : lookupKV m2 "precursor_mz" =
        some (mfloat (pyFloatCast x0)) := by
      rw [hm2eq, lookupKV_chargeBlock_ne (by decide),
        lookupKV_popKV_ne _ (by decide), lookupKV_popKV_ne _ (by decide),
        lookupKV_setKV_self]
    have hm2a1 : lookupKV m2 "precursormz" = none := by
      rw [hm2eq, lookupKV_chargeBlock_ne (by decide),
        lookupKV_popKV_ne _ (by decide)]
      exact lookupKV_popKV_self (nodup_keysOf_setKV hcan1.2)
    have hm2a2 : lookupKV m2 "precursor_mass" = none := by
      rw [hm2eq, lookupKV_chargeBlock_ne (by decide)]
      exact lookupKV_popKV_self
        (nodup_keysOf_popKV (nodup_keysOf_setKV hcan1.2))
    have hfc2 : firstCandidateVal m2 = mfloat (pyFloatCast x0) := by
      have hg2 : get_first_common_element (keysOf m2)
          (default_key :: accepted_keys) = some default_key :=
        gfce_of_mem_first accepted_keys (mem_keysOf_of_lookup hm2pm)
      unfold firstCandidateVal
      rw [hg2]
      exact getD_of_lookup hm2pm
    have hadd2 : add_precursor_mz_metadata m2 = Except.ok m2 := by
      have hcv2 : convert_precursor_mz (firstCandidateVal m2) =
          some (mfloat (pyFloatCast x0)) := by
        rw [hfc2]
        rfl
      rw [add_precursor_float_branch hcv2]
      have hset2 : setKV m2 "precursor_mz"
          (mfloat (pyFloatCast (mfloat (pyFloatCast x0)))) = m2 :=
        setKV_lookup_eq hm2pm
      rw [hset2, popKV_not_mem hm2a1, popKV_not_mem hm2a2]
    have hion2blk : ionmodeBlock m2 = Except.ok m2 :=
      ionmodeBlock_of_fixed hion2 hfix2
    have hch2 : chargeBlock m2 = m2 := by
      rw [hm2eq, chargeBlock_idem]
    exact harmonize_of_parts (installTables_fixed hcan2.2 hcan2.1)
      hion2blk hadd2 hch2
  · -- pass 1 wrote nothing: pass 2 writes nothing as well, so m2 = m1
    subst hq0eq
    have hfc1 : firstCandidateVal m1 = firstCandidateVal q0 := by
      rw [hm1eq, firstCandidateVal_chargeBlock]
    have hpp1 : getD m1 "pepmass" = getD q0 "pepmass" := by
      rw [hm1eq]
      show (lookupKV (chargeBlock q0) "pepmass").getD mnull =
        (lookupKV q0 "pepmass").getD mnull
      rw [lookupKV_chargeBlock_ne (by decide)]
    have hadd1 : add_precursor_mz_metadata m1 = Except.ok m1 := by
      rcases hrest0 with hnull | ⟨tokc, hidxc, hctc⟩
      · exact add_precursor_none_null (by rw [hfc1]; exact hcv0)
          (by rw [hpp1]; exact hnull)
      · refine add_precursor_none_tok (by rw [hfc1]; exact hcv0) ?_ ?_ hctc
        · rw [hpp1]
          intro hc
          rw [hc] at hidxc
          simp [index0] at hidxc
        · rw [hpp1]
          exact hidxc
    rw [hadd1] at hq2
    cases hq2
    have hm2m1 : m2 = m1 := by
      rw [hm2eq, hm1eq, chargeBlock_idem]
    rw [hm2m1] at h2 ⊢
    exact h2

/-- Claim C2 amended witness: the second-pass output of the
counterexample record is a harmonization fixpoint. -/
theorem harmonize_second_pass_fixpoint_witness :
    harmonize_metadata
      [("pepmass", mlist [sfloat ⟨1201, 1⟩, sint 5]),
       ("ionmode", mstr "n/a".data),
       ("precursor_mz", mfloat ⟨1201, 1⟩)] = Except.ok
      [("pepmass", mlist [sfloat ⟨1201, 1⟩, sint 5]),
       ("ionmode", mstr "n/a".data),
       ("precursor_mz", mfloat ⟨1201, 1⟩)] :=
  @harmonize_second_pass_fixpoint
    [("precursormz", mstr "N/A".data),
     ("pepmass", mlist [sfloat ⟨1201, 1⟩, sint 5])]
    [("precursormz", mstr "N/A".data),
     ("pepmass", mlist [sfloat ⟨1201, 1⟩, sint 5]),
     ("ionmode", mstr "n/a".data),
     ("precursor_mz", mfloat ⟨1201, 1⟩)]
    [("pepmass", mlist [sfloat ⟨1201, 1⟩, sint 5]),
     ("ionmode", mstr "n/a".data),
     ("precursor_mz", mfloat ⟨1201, 1⟩)]
    (by decide) (by decide)
